import Mathlib

/-!
Formal model of the document ingestion and hybrid-search backend.

The development shallowly embeds the TypeScript source:

* `chunkText` and its helpers follow `src/utils/chunking.ts` (`chunkText`):
  texts are lists of characters, the JS `while` loop is given explicit fuel
  (`none` means the loop has not finished within the given fuel), and the JS
  clamped cursor update `currentIndex = chunkEnd - overlap; if (< 0) 0` is
  Nat truncated subtraction.
* the ingestion worker, `FileParser`, and
  `DocumentService.updateIngestionStatus` follow
  `src/workers/documentIngestion.worker.ts`, `src/utils/fileParser.ts` and
  `src/modules/document/document.service.ts`; external effects (S3 download,
  the extractor libraries, OpenAI, Qdrant) are oracle fields of `WorkerEnv`,
  and thrown JS `Error`s are `Except.error` carrying the message.
* the search service follows `src/modules/search/search.service.ts`;
  JS `Map` insertion-order semantics are an association list, the stable
  `Array.prototype.sort` by descending score is a stable insertion sort,
  and floating-point RRF scores are exact rationals.
-/

set_option maxRecDepth 8000

namespace DocSearch

/-- Whitespace test used by the JS `trim`, `split(/\s+/)` and normalizer. -/
def isWs (c : Char) : Bool := c = ' ' || c = '\t' || c = '\n' || c = '\r'

/-- JS `String.prototype.trim`: strip whitespace from both ends. -/
def jsTrim (s : List Char) : List Char :=
  ((s.dropWhile isWs).reverse.dropWhile isWs).reverse

/-- Chunking options of `chunkText` (`ChunkOptions` in `chunking.ts`). -/
structure ChunkOptions where
  maxChunkSize : Nat
  chunkOverlap : Nat
  separators : List (List Char)
deriving Repr, DecidableEq

/-- Default separators of `chunking.ts`: paragraph break, line break,
sentence end, space, empty string (hard cut). -/
def defaultSeparators : List (List Char) :=
  [['\n', '\n'], ['\n'], ['.', ' '], [' '], []]

/-- Options the ingestion worker passes to `chunkText`
(`maxChunkSize: 1000, chunkOverlap: 200`). -/
def workerChunkOptions : ChunkOptions :=
  { maxChunkSize := 1000, chunkOverlap := 200, separators := defaultSeparators }

/-- One produced chunk (`TextChunk` in `chunking.ts`). -/
structure TextChunk where
  text : List Char
  startIndex : Nat
  endIndex : Nat
  chunkIndex : Nat
deriving Repr, DecidableEq

/-- JS `String.prototype.lastIndexOf`: start index of the last occurrence of
`sep` in `s`, `none` for JS `-1`; the empty separator occurs at `s.length`. -/
def lastIndexOf (s sep : List Char) : Option Nat :=
  ((List.range (s.length + 1)).filter (fun i => sep.isPrefixOf (s.drop i))).getLast?

/-- The separator scan of `chunkText`: the first separator whose last
occurrence `li` in the window satisfies `li > maxChunkSize * 0.5` (for
integers, `maxChunkSize < 2 * li`) yields the split offset
`li + sep.length`; otherwise the scan continues. -/
def findSplit (window : List Char) (maxChunkSize : Nat) : List (List Char) → Option Nat
  | [] => none
  | sep :: rest =>
    match lastIndexOf window sep with
    | some li =>
      if maxChunkSize < 2 * li then some (li + sep.length)
      else findSplit window maxChunkSize rest
    | none => findSplit window maxChunkSize rest

/-- Loop state of `chunkText`: cursor, running chunk index and emitted chunks. -/
structure ChunkState where
  currentIndex : Nat
  chunkIndex : Nat
  chunks : List TextChunk
deriving Repr, DecidableEq

/-- One iteration of the `while` body of `chunkText` (only called when
`currentIndex < text.length`): pick the window, optionally move the end to a
separator, emit the trimmed chunk, and set the cursor to
`chunkEnd - overlap` clamped at 0 (Nat subtraction). -/
def chunkStep (text : List Char) (opts : ChunkOptions) (s : ChunkState) : ChunkState :=
  let chunkEnd0 := min (s.currentIndex + opts.maxChunkSize) text.length
  let window := (text.drop s.currentIndex).take (chunkEnd0 - s.currentIndex)
  let chunkEnd :=
    if chunkEnd0 < text.length then
      match findSplit window opts.maxChunkSize opts.separators with
      | some off => s.currentIndex + off
      | none => chunkEnd0
    else chunkEnd0
  let chunkTxt := (text.drop s.currentIndex).take (chunkEnd - s.currentIndex)
  { currentIndex := chunkEnd - opts.chunkOverlap,
    chunkIndex := s.chunkIndex + 1,
    chunks := s.chunks ++ [{ text := jsTrim chunkTxt, startIndex := s.currentIndex,
                             endIndex := chunkEnd, chunkIndex := s.chunkIndex }] }

/-- The cursor after one iteration depends only on the cursor before it. -/
def stepIndex (text : List Char) (opts : ChunkOptions) (i : Nat) : Nat :=
  (chunkStep text opts { currentIndex := i, chunkIndex := 0, chunks := [] }).currentIndex

/-- The `while (currentIndex < text.length)` loop of `chunkText`, with fuel:
`none` means the loop was still running when the fuel ran out. -/
def chunkLoop (text : List Char) (opts : ChunkOptions) : Nat → ChunkState → Option (List TextChunk)
  | 0, s => if s.currentIndex < text.length then none else some s.chunks
  | fuel + 1, s =>
    if s.currentIndex < text.length then chunkLoop text opts fuel (chunkStep text opts s)
    else some s.chunks

/-- `chunkText` of `chunking.ts`, with fuel for the unbounded `while` loop. -/
def chunkText (text : List Char) (opts : ChunkOptions) (fuel : Nat) : Option (List TextChunk) :=
  chunkLoop text opts fuel { currentIndex := 0, chunkIndex := 0, chunks := [] }

/-- The call `chunkText text opts` never returns: no amount of fuel finishes
the loop. -/
def chunkTextDiverges (text : List Char) (opts : ChunkOptions) : Prop :=
  ∀ fuel, chunkText text opts fuel = none

/-- A short non-empty input text. -/
def exampleTextC1 : List Char := "hello world".toList

/-- A two-character input text, far shorter than the worker's 1000-character
`maxChunkSize`. -/
def exampleTextC6 : List Char := "ab".toList

/-- Prisma enum `DocumentType`. -/
inductive DocumentType
  | PDF | DOCX | DOC | XLSX | XLS | PPTX | PPT | TXT | MD | CSV | OTHER
deriving Repr, DecidableEq

/-- Name of a `DocumentType` as interpolated into error messages. -/
def DocumentType.name : DocumentType → String
  | .PDF => "PDF" | .DOCX => "DOCX" | .DOC => "DOC" | .XLSX => "XLSX"
  | .XLS => "XLS" | .PPTX => "PPTX" | .PPT => "PPT" | .TXT => "TXT"
  | .MD => "MD" | .CSV => "CSV" | .OTHER => "OTHER"

/-- Document types with a registered extractor in `FileParser.parseDocument`. -/
def DocumentType.supported : DocumentType → Bool
  | .PDF | .DOCX | .DOC | .XLSX | .XLS | .TXT | .MD => true
  | _ => false

/-- Prisma enum `IngestionStatus`. -/
inductive IngestionStatus
  | PENDING | PARSING | CHUNKING | EMBEDDING | INDEXING | COMPLETED | FAILED
deriving Repr, DecidableEq

/-- Prisma enum `DocumentStatus`. -/
inductive DocumentStatus
  | PENDING | UPLOADING | UPLOADED | PROCESSING | PROCESSED | FAILED | DELETED
deriving Repr, DecidableEq

/-- Result of `FileParser.parseDocument` (`ParsedDocument` in
`fileParser.ts`); only the metadata fields the worker reads are kept. -/
structure ParsedDocument where
  text : List Char
  pageCount : Option Nat
  wordCount : Option Nat
deriving Repr, DecidableEq

/-- Count of maximal non-whitespace runs; `inRun` says whether the previous
character was part of such a run. -/
def countRunsAux : Bool → List Char → Nat
  | _, [] => 0
  | inRun, c :: rest =>
    if isWs c then countRunsAux false rest
    else (if inRun then 0 else 1) + countRunsAux true rest

/-- Length of the array `text.split(/\s+/)` in JS: one empty field for the
empty string, plus one empty field for each whitespace end of the string. -/
def splitWsCount (s : List Char) : Nat :=
  if s.isEmpty then 1
  else
    countRunsAux false s + (if isWs (s.headD ' ') then 1 else 0) +
      (if isWs (s.getLastD ' ') then 1 else 0)

/-- `FileParser.parseText`: decode the buffer and count words. -/
def parseText (buffer : List Char) : ParsedDocument :=
  { text := buffer, pageCount := none, wordCount := some (splitWsCount buffer) }

instance {ε α : Type} [DecidableEq ε] [DecidableEq α] : DecidableEq (Except ε α) := fun a b =>
  match a, b with
  | .ok x, .ok y => if h : x = y then .isTrue (by rw [h]) else .isFalse (by simp [h])
  | .error x, .error y => if h : x = y then .isTrue (by rw [h]) else .isFalse (by simp [h])
  | .ok _, .error _ => .isFalse (by simp)
  | .error _, .ok _ => .isFalse (by simp)

/-- Results of the extractor libraries (`pdf-parse`, `mammoth`, `xlsx`) as
wrapped by the private `parsePDF`/`parseDOCX`/`parseExcel` methods: each one
either returns a parsed document or throws its own error message. -/
structure ParserOracles where
  pdf : Except String ParsedDocument
  docx : Except String ParsedDocument
  excel : Except String ParsedDocument
deriving Repr, DecidableEq

/-- The `switch` of `FileParser.parseDocument`: dispatch on the declared
type; a type with no extractor throws `Unsupported file type: <type>`. -/
def parseDocumentInner (o : ParserOracles) (buffer : List Char) :
    DocumentType → Except String ParsedDocument
  | .PDF => o.pdf
  | .DOCX | .DOC => o.docx
  | .XLSX | .XLS => o.excel
  | .TXT | .MD => .ok (parseText buffer)
  | t => .error ("Unsupported file type: " ++ t.name)

/-- `FileParser.parseDocument`: the surrounding `try/catch` replaces ANY
inner error (including the unsupported-type error) with the generic message
`Failed to parse document`. -/
def parseDocument (o : ParserOracles) (buffer : List Char) (t : DocumentType) :
    Except String ParsedDocument :=
  match parseDocumentInner o buffer t with
  | .ok r => .ok r
  | .error _ => .error "Failed to parse document"

/-- First two regex replaces of `FileParser.normalizeText`:
`\r\n` to `\n`, then remaining `\r` to `\n`. -/
def replaceCr : List Char → List Char
  | [] => []
  | '\r' :: '\n' :: rest => '\n' :: replaceCr rest
  | '\r' :: rest => '\n' :: replaceCr rest
  | c :: rest => c :: replaceCr rest

/-- Third replace of `normalizeText`: runs of three or more `\n` become two. -/
def capNewlines : List Char → List Char
  | [] => []
  | '\n' :: '\n' :: '\n' :: rest => capNewlines ('\n' :: '\n' :: rest)
  | c :: rest => c :: capNewlines rest
termination_by s => s.length

/-- Fourth replace of `normalizeText`: runs of spaces and tabs become one
space. -/
def collapseSpaces : List Char → List Char
  | [] => []
  | c :: rest =>
    if c = ' ' || c = '\t' then
      match rest with
      | [] => [' ']
      | d :: _ =>
        if d = ' ' || d = '\t' then collapseSpaces rest else ' ' :: collapseSpaces rest
    else c :: collapseSpaces rest

/-- `FileParser.normalizeText`: line-ending unification, blank-line capping,
whitespace collapsing, and a final trim. -/
def normalizeText (s : List Char) : List Char :=
  jsTrim (collapseSpaces (capNewlines (replaceCr s)))

/-- The `documents` row fields the pipeline touches. Timestamps
(`ingestionStartedAt`, `ingestionCompletedAt`, `processedAt`) are not
modelled. -/
structure DocumentRow where
  id : String
  ingestionStatus : IngestionStatus
  status : DocumentStatus
  ingestionError : Option String
  chunkCount : Nat
  embeddingCount : Nat
  qdrantCollectionId : Option String
  pageCount : Option Nat
  wordCount : Option Nat
deriving Repr, DecidableEq

/-- A `chunks` row as created by the worker (`prisma.chunk.create`). -/
structure ChunkRow where
  id : Nat
  documentId : String
  content : List Char
  chunkIndex : Nat
  startCharIndex : Nat
  endCharIndex : Nat
  pageNumber : Option Nat
  hasEmbedding : Bool
  tokenCount : Nat
deriving Repr, DecidableEq

/-- A point sent to `QdrantService.upsertVectors`, with the payload fields of
the worker. -/
structure QdrantPoint where
  id : Nat
  vector : List ℚ
  payloadDocumentId : String
  payloadWorkspaceId : String
  payloadChunkIndex : Nat
  payloadContent : List Char
  payloadPageNumber : Option Nat
deriving Repr, DecidableEq

/-- Relational state seen by the worker: the job's document row, the chunk
rows, the id sequence for created chunks, plus two observation traces — the
sequence of `updateIngestionStatus` writes and the points handed to
`QdrantService.upsertVectors`. -/
structure Db where
  doc : DocumentRow
  chunks : List ChunkRow
  nextChunkId : Nat
  statusWrites : List IngestionStatus
  qdrantUpserts : List QdrantPoint
deriving Repr, DecidableEq

/-- Metadata argument of `DocumentService.updateIngestionStatus`. -/
structure StatusMetadata where
  chunkCount : Option Nat := none
  embeddingCount : Option Nat := none
  qdrantCollectionId : Option String := none
  pageCount : Option Nat := none
  wordCount : Option Nat := none
deriving Repr, DecidableEq

/-- Prisma update semantics for one field: an `undefined` value leaves the
stored value unchanged. -/
def orKeep {α : Type} (new old : Option α) : Option α :=
  match new with
  | some v => some v
  | none => old

/-- `DocumentService.updateIngestionStatus`: set `ingestionStatus`, on
`COMPLETED` also `status = PROCESSED`, on `FAILED` also `ingestionError` and
`status = FAILED`, then apply any provided counters. -/
def updateIngestionStatus (db : Db) (status : IngestionStatus) (error : Option String)
    (metadata : Option StatusMetadata) : Db :=
  let d0 := { db.doc with ingestionStatus := status }
  let d1 := if status = .COMPLETED then { d0 with status := .PROCESSED } else d0
  let d2 := if status = .FAILED then { d1 with ingestionError := error, status := .FAILED } else d1
  let d3 :=
    match metadata with
    | none => d2
    | some m =>
      { d2 with
        chunkCount := m.chunkCount.getD d2.chunkCount,
        embeddingCount := m.embeddingCount.getD d2.embeddingCount,
        qdrantCollectionId := orKeep m.qdrantCollectionId d2.qdrantCollectionId,
        pageCount := orKeep m.pageCount d2.pageCount,
        wordCount := orKeep m.wordCount d2.wordCount }
  { db with doc := d3, statusWrites := db.statusWrites ++ [status] }

/-- The worker's page-number heuristic
`Math.floor(chunk.startIndex / (normalizedText.length / pageCount))`,
evaluated over exact rationals: `null` when `pageCount` is falsy (absent or
0). -/
def pageNumberFor (pageCount : Option Nat) (startIndex textLen : Nat) : Option Nat :=
  match pageCount with
  | some pc => if pc = 0 then none else some (startIndex * pc / textLen)
  | none => none

/-- `OpenAIService.estimateTokens`: `Math.ceil(text.length / 4)`. -/
def estimateTokens (text : List Char) : Nat := (text.length + 3) / 4

/-- External effects of one worker run, as oracles: the S3 download, the
extractor libraries, the value returned by the `chunkText` call (an oracle
because that call need not return, see the `chunkText` theorems), the OpenAI
embedding batch, and the Qdrant collection/upsert calls. -/
structure WorkerEnv where
  download : Except String (List Char)
  parsers : ParserOracles
  chunks : List TextChunk
  embeddings : Except String (List (List ℚ))
  collection : Except String String
  upsert : Except String Unit
deriving Repr, DecidableEq

/-- Payload of a `document-ingestion` job (`DocumentIngestionJobData`). -/
structure JobData where
  documentId : String
  workspaceId : String
  s3Key : String
  documentType : DocumentType
deriving Repr, DecidableEq

/-- The worker's chunk-persistence loop: for each chunk (paired with
`embeddings[i]`, `[]` when out of range), a blind `prisma.chunk.create`
that violates the `(documentId, chunkIndex)` unique index if such a row
already exists, and the matching Qdrant point whose payload stores only a
500-character content preview. -/
def createChunksLoop (documentId workspaceId : String) (pageCount : Option Nat)
    (textLen : Nat) :
    Db → List QdrantPoint → List (TextChunk × List ℚ) →
      Db × Except String (List QdrantPoint)
  | db, acc, [] => (db, .ok acc)
  | db, acc, (chunk, emb) :: rest =>
    if db.chunks.any (fun c => c.documentId = documentId && c.chunkIndex = chunk.chunkIndex) then
      (db, .error "Unique constraint failed on the fields: (documentId, chunkIndex)")
    else
      let row : ChunkRow :=
        { id := db.nextChunkId, documentId := documentId, content := chunk.text,
          chunkIndex := chunk.chunkIndex, startCharIndex := chunk.startIndex,
          endCharIndex := chunk.endIndex,
          pageNumber := pageNumberFor pageCount chunk.startIndex textLen,
          hasEmbedding := true, tokenCount := estimateTokens chunk.text }
      let point : QdrantPoint :=
        { id := db.nextChunkId, vector := emb, payloadDocumentId := documentId,
          payloadWorkspaceId := workspaceId, payloadChunkIndex := chunk.chunkIndex,
          payloadContent := chunk.text.take 500,
          payloadPageNumber := row.pageNumber }
      createChunksLoop documentId workspaceId pageCount textLen
        { db with chunks := db.chunks ++ [row], nextChunkId := db.nextChunkId + 1 }
        (acc ++ [point]) rest

/-- Result value of a successful worker run. -/
structure IngestResult where
  chunkCount : Nat
  embeddingCount : Nat
deriving Repr, DecidableEq

/-- The `||` fallback `parsed.metadata.wordCount || normalizedText.split(/\s+/).length`. -/
def wordCountOf (parsed : ParsedDocument) (normalizedText : List Char) : Nat :=
  match parsed.wordCount with
  | some w => if w = 0 then splitWsCount normalizedText else w
  | none => splitWsCount normalizedText

/-- Body of the `try` block of the ingestion worker, in the code's order:
status PARSING, S3 download, `FileParser.parseDocument`, normalization, the
chunk list, `OpenAIService.generateEmbeddings`, the Qdrant collection, the
chunk-persistence loop, the batch upsert (only with a non-empty point list),
status COMPLETED with the final counters, and a final `prisma.document.update`
with the same counters. -/
def runIngestCore (env : WorkerEnv) (job : JobData) (db : Db) :
    Db × Except String IngestResult :=
  let db := updateIngestionStatus db .PARSING none none
  match env.download with
  | .error e => (db, .error e)
  | .ok buffer =>
    match parseDocument env.parsers buffer job.documentType with
    | .error e => (db, .error e)
    | .ok parsed =>
      let normalizedText := normalizeText parsed.text
      let chunks := env.chunks
      match env.embeddings with
      | .error e => (db, .error e)
      | .ok embeddings =>
        match env.collection with
        | .error e => (db, .error e)
        | .ok collectionName =>
          let pairs := chunks.enum.map (fun p => (p.2, embeddings.getD p.1 []))
          match createChunksLoop job.documentId job.workspaceId parsed.pageCount
              normalizedText.length db [] pairs with
          | (db, .error e) => (db, .error e)
          | (db, .ok points) =>
            let db := if points.isEmpty then db
              else { db with qdrantUpserts := db.qdrantUpserts ++ points }
            match (if points.isEmpty then Except.ok () else env.upsert) with
            | .error e => (db, .error e)
            | .ok _ =>
              let meta : StatusMetadata :=
                { chunkCount := some chunks.length,
                  embeddingCount := some embeddings.length,
                  qdrantCollectionId := some collectionName,
                  pageCount := parsed.pageCount,
                  wordCount := some (wordCountOf parsed normalizedText) }
              let db := updateIngestionStatus db .COMPLETED none (some meta)
              let db :=
                { db with doc :=
                  { db.doc with
                    chunkCount := chunks.length, embeddingCount := embeddings.length,
                    qdrantCollectionId := some collectionName,
                    pageCount := orKeep parsed.pageCount db.doc.pageCount,
                    wordCount := some (wordCountOf parsed normalizedText) } }
              (db, .ok { chunkCount := chunks.length, embeddingCount := embeddings.length })

/-- The whole worker handler: the `catch` of the `try/catch` writes status
FAILED with the thrown error's message and re-throws the same error. -/
def runIngest (env : WorkerEnv) (job : JobData) (db : Db) :
    Db × Except String IngestResult :=
  match runIngestCore env job db with
  | (db, .ok r) => (db, .ok r)
  | (db, .error e) => (updateIngestionStatus db .FAILED (some e) none, .error e)

/-- A document row whose ingestion already COMPLETED, with one chunk. -/
def docCompleted : DocumentRow :=
  { id := "doc1", ingestionStatus := .COMPLETED, status := .PROCESSED,
    ingestionError := none, chunkCount := 1, embeddingCount := 1,
    qdrantCollectionId := some "workspace_w1", pageCount := none, wordCount := some 1 }

/-- The single persisted chunk row of the COMPLETED document. -/
def chunkRow0 : ChunkRow :=
  { id := 0, documentId := "doc1", content := "hello".toList, chunkIndex := 0,
    startCharIndex := 0, endCharIndex := 5, pageNumber := none,
    hasEmbedding := true, tokenCount := 2 }

/-- Database state after a completed ingestion of `doc1`. -/
def dbCompleted : Db :=
  { doc := docCompleted, chunks := [chunkRow0], nextChunkId := 1,
    statusWrites := [], qdrantUpserts := [] }

/-- A document row still waiting for its first ingestion. -/
def docPending : DocumentRow :=
  { id := "doc1", ingestionStatus := .PENDING, status := .UPLOADED,
    ingestionError := none, chunkCount := 0, embeddingCount := 0,
    qdrantCollectionId := none, pageCount := none, wordCount := none }

/-- Database state before the first ingestion of `doc1`. -/
def dbFresh : Db :=
  { doc := docPending, chunks := [], nextChunkId := 0,
    statusWrites := [], qdrantUpserts := [] }

/-- An ingestion job for `doc1` declared as plain text. -/
def jobTxt : JobData :=
  { documentId := "doc1", workspaceId := "w1", s3Key := "uploads/doc1.txt",
    documentType := .TXT }

/-- An ingestion job for `doc1` declared with a type that has no extractor. -/
def jobPptx : JobData :=
  { documentId := "doc1", workspaceId := "w1", s3Key := "uploads/doc1.pptx",
    documentType := .PPTX }

/-- A worker environment in which every external call succeeds and the
chunker returned a single chunk. -/
def envOk : WorkerEnv :=
  { download := .ok "hello".toList,
    parsers := { pdf := .error "Failed to parse PDF file",
                 docx := .error "Failed to parse DOCX file",
                 excel := .error "Failed to parse Excel file" },
    chunks := [{ text := "hello".toList, startIndex := 0, endIndex := 5, chunkIndex := 0 }],
    embeddings := .ok [[1]],
    collection := .ok "workspace_w1",
    upsert := .ok () }

/-- A worker environment whose S3 download fails. -/
def envS3Down : WorkerEnv := { envOk with download := .error "Failed to download file" }

/-- A worker environment for a document whose stored file is empty: S3
returns the empty buffer, the `chunkText` call returns no chunks — the value
`chunkText` itself computes on the empty text, the only text on which that
call returns at all — and the embedding batch over zero texts yields zero
vectors. -/
def envEmpty : WorkerEnv :=
  { download := .ok [],
    parsers := { pdf := .error "Failed to parse PDF file",
                 docx := .error "Failed to parse DOCX file",
                 excel := .error "Failed to parse Excel file" },
    chunks := [],
    embeddings := .ok [],
    collection := .ok "workspace_w1",
    upsert := .ok () }

/-- A `chunks` row as read by the search service, with its `document`
relation resolved through `SearchDb.documents`. Soft deletion
(`deletedAt`) is the `deleted` flag. -/
structure SChunkRow where
  id : String
  documentId : String
  content : String
  pageNumber : Option Nat
  sectionTitle : Option String
  hasEmbedding : Bool
  deleted : Bool
deriving Repr, DecidableEq

/-- A `documents` row as read by the search service. -/
structure DocumentRec where
  id : String
  name : String
  workspaceId : String
  status : DocumentStatus
  deleted : Bool
deriving Repr, DecidableEq

/-- Relational state seen by the search service; `memberships` holds the
`(workspaceId, userId)` pairs of non-deleted `workspace_members` rows. -/
structure SearchDb where
  documents : List DocumentRec
  chunks : List SChunkRow
  memberships : List (String × String)
deriving Repr, DecidableEq

/-- A search hit (`SearchResult` in `search.types.ts`). -/
structure SearchResult where
  chunkId : String
  documentId : String
  documentName : String
  content : String
  score : ℚ
  pageNumber : Option Nat
  sectionTitle : Option String
deriving Repr, DecidableEq

/-- Request body of `SearchService.search` (`SearchInput`). -/
structure SearchInput where
  query : String
  limit : Option Nat
  documentIds : Option (List String)
deriving Repr, DecidableEq

/-- Response of `SearchService.search`, without the timing metadata. -/
structure SearchResponse where
  results : List SearchResult
  total : Nat
  query : String
deriving Repr, DecidableEq

/-- External effects of one `search` call, as oracles: the result of
`OpenAIService.generateEmbedding` on the query and the ranked
`(id, score)` list from `QdrantService.searchVectors`. -/
structure SearchEnv where
  embedQuery : Except String (List ℚ)
  qdrant : Except String (List (String × ℚ))
deriving Repr, DecidableEq

/-- How many times the embedding provider and the vector index were called. -/
structure SearchTrace where
  embedCalls : Nat
  qdrantCalls : Nat
deriving Repr, DecidableEq

/-- One slot of the JS `Map` `scoreMap` of `combineSearchResults`, keyed by
`chunkId`: a set on an existing key updates the accumulated score in place
(keeping position and the first-seen result), a new key is appended. -/
def upsertScore (m : List (SearchResult × ℚ)) (r : SearchResult) (inc : ℚ) :
    List (SearchResult × ℚ) :=
  if m.any (fun e => e.1.chunkId == r.chunkId) then
    m.map (fun e => if e.1.chunkId == r.chunkId then (e.1, e.2 + inc) else e)
  else m ++ [(r, inc)]

/-- `results.forEach((result, index) => ...)`: contribute
`1 / (k + index + 1)` with `k = 60` for every result of one list. -/
def rrfFold (m : List (SearchResult × ℚ)) (rs : List SearchResult) :
    List (SearchResult × ℚ) :=
  rs.enum.foldl (fun m p => upsertScore m p.2 (1 / (60 + (p.1 : ℚ) + 1))) m

/-- `rrfFold` with the indexing started at `n`, for induction. -/
def rrfFoldFrom (n : Nat) (m : List (SearchResult × ℚ)) (rs : List SearchResult) :
    List (SearchResult × ℚ) :=
  (rs.enumFrom n).foldl (fun m p => upsertScore m p.2 (1 / (60 + (p.1 : ℚ) + 1))) m

/-- Stable insertion for a descending sort by accumulated score: a later
element is placed after every earlier element of equal or larger score. -/
def insertByScore (x : SearchResult × ℚ) :
    List (SearchResult × ℚ) → List (SearchResult × ℚ)
  | [] => [x]
  | y :: ys => if y.2 ≤ x.2 then x :: y :: ys else y :: insertByScore x ys

/-- The stable `sort((a, b) => b.rrfScore - a.rrfScore)` over exact
rational scores. -/
def sortByScoreDesc (l : List (SearchResult × ℚ)) : List (SearchResult × ℚ) :=
  l.foldr insertByScore []

/-- `SearchService.combineSearchResults`: accumulate RRF scores per chunkId
over both lists, sort by summed score descending (stably), keep the top
`limit`, and replace each result's score with its RRF score. -/
def combineSearchResults (vectorResults keywordResults : List SearchResult)
    (limit : Nat) : List SearchResult :=
  let m := rrfFold (rrfFold [] vectorResults) keywordResults
  ((sortByScoreDesc m).take limit).map (fun e => { e.1 with score := e.2 })

/-- The accumulated score stored in the map under a chunk id. -/
def lookupScore (m : List (SearchResult × ℚ)) (cid : String) : Option ℚ :=
  (m.find? (fun e => e.1.chunkId == cid)).map (fun e => e.2)

/-- The insertion-ordered keys of the score map. -/
def keysOf (m : List (SearchResult × ℚ)) : List String :=
  m.map (fun e => e.1.chunkId)

/-- The 0-based rank of a chunk id in a result list. -/
def rankOf (rs : List SearchResult) (cid : String) : Option Nat :=
  rs.findIdx? (fun r => r.chunkId == cid)

/-- RRF contribution of one list: `1 / (60 + rank + 1)` when present, else 0. -/
def rrfContrib (rs : List SearchResult) (cid : String) : ℚ :=
  match rankOf rs cid with
  | some i => 1 / (60 + (i : ℚ) + 1)
  | none => 0

/-- Fused RRF score of a chunk id: the sum over the lists it appears in. -/
def rrfScoreOf (v k : List SearchResult) (cid : String) : ℚ :=
  rrfContrib v cid + rrfContrib k cid

/-- Strict order on optional ranks, a missing rank being infinite. -/
def rankLt : Option Nat → Option Nat → Prop
  | some i, some j => i < j
  | some _, none => True
  | none, _ => False

/-- Tie-break order: semantic rank first, then lexical rank, then chunk id. -/
def tieBreak (v k : List SearchResult) (a b : SearchResult) : Prop :=
  rankLt (rankOf v a.chunkId) (rankOf v b.chunkId) ∨
    (rankOf v a.chunkId = rankOf v b.chunkId ∧
      (rankLt (rankOf k a.chunkId) (rankOf k b.chunkId) ∨
        (rankOf k a.chunkId = rankOf k b.chunkId ∧ a.chunkId < b.chunkId)))

/-- Output order of the fusion: score strictly descending, ties resolved by
`tieBreak`. -/
def rrfOrder (v k : List SearchResult) (a b : SearchResult) : Prop :=
  b.score < a.score ∨ (a.score = b.score ∧ tieBreak v k a b)

/-- JS `||` with a numeric default (`data.limit || 10`). -/
def jsOr (v : Option Nat) (d : Nat) : Nat :=
  match v with
  | some n => if n = 0 then d else n
  | none => d

/-- Case-insensitive substring test (prisma `contains` with
`mode: 'insensitive'`). -/
def containsCI (hay needle : String) : Bool :=
  let h := hay.toLower.data
  let n := needle.toLower.data
  (List.range (h.length + 1)).any (fun i => n.isPrefixOf (h.drop i))

/-- The candidate-document query of `SearchService.search`:
workspace-scoped, not deleted, status PROCESSED, and restricted to
`documentIds` only when that filter is present and non-empty. -/
def resolvedDocuments (db : SearchDb) (workspaceId : String)
    (documentIds : Option (List String)) : List DocumentRec :=
  db.documents.filter (fun d =>
    d.workspaceId == workspaceId && !d.deleted && d.status == DocumentStatus.PROCESSED &&
      (match documentIds with
       | some ids => if ids.isEmpty then true else ids.contains d.id
       | none => true))

/-- The workspace-membership check at the top of `search` and
`askQuestion` (skipped when no user id is given). -/
def memberOk (db : SearchDb) (workspaceId : String) (userId : Option String) : Bool :=
  match userId with
  | none => true
  | some u => db.memberships.any (fun m => m.1 == workspaceId && m.2 == u)

/-- The `document.name` of a chunk's prisma `include` relation. -/
def documentName (db : SearchDb) (documentId : String) : String :=
  ((db.documents.find? (fun d => d.id == documentId)).map (fun d => d.name)).getD ""

/-- JS `substring(0, n)` on a string, modelled character-wise. -/
def takeChars (s : String) (n : Nat) : String := ⟨s.data.take n⟩

/-- Hydration of the vector branch: fetch the non-deleted chunk rows of the
returned ids, keep the Qdrant order, drop ids without a row, and truncate
each content to its first 500 characters. -/
def hydrateVector (db : SearchDb) (qdrantResults : List (String × ℚ)) :
    List SearchResult :=
  let chunkIds := qdrantResults.map (fun qr => qr.1)
  let chunks := db.chunks.filter (fun c => chunkIds.contains c.id && !c.deleted)
  qdrantResults.filterMap (fun qr =>
    match chunks.find? (fun c => c.id == qr.1) with
    | none => none
    | some c => some
        { chunkId := c.id, documentId := c.documentId,
          documentName := documentName db c.documentId,
          content := takeChars c.content 500, score := qr.2,
          pageNumber := c.pageNumber, sectionTitle := c.sectionTitle })

/-- The keyword branch: chunks of the candidate documents with an embedding,
not deleted, whose content contains the query case-insensitively, first
`limit` of them in database order, scored `0.5 - index * 0.05`, content
truncated to 500 characters. -/
def keywordSearch (db : SearchDb) (docIds : List String) (query : String)
    (limit : Nat) : List SearchResult :=
  let found := (db.chunks.filter (fun c =>
    docIds.contains c.documentId && c.hasEmbedding && !c.deleted &&
      containsCI c.content query)).take limit
  found.enum.map (fun p =>
    { chunkId := p.2.id, documentId := p.2.documentId,
      documentName := documentName db p.2.documentId,
      content := takeChars p.2.content 500,
      score := 1 / 2 - (p.1 : ℚ) * (1 / 20),
      pageNumber := p.2.pageNumber, sectionTitle := p.2.sectionTitle })

/-- `SearchService.search`: membership check, candidate resolution with the
empty-set early return, the vector branch (whose failures degrade to an
empty vector list), the keyword branch, and RRF fusion. The `query`-history
insert carries no result data and is not modelled. -/
def search (env : SearchEnv) (db : SearchDb) (workspaceId : String)
    (userId : Option String) (data : SearchInput) :
    Except String (SearchResponse × SearchTrace) :=
  if !(memberOk db workspaceId userId) then
    .error "You are not a member of this workspace"
  else
    let documents := resolvedDocuments db workspaceId data.documentIds
    if documents.isEmpty then
      .ok ({ results := [], total := 0, query := data.query },
           { embedCalls := 0, qdrantCalls := 0 })
    else
      let documentIds := documents.map (fun d => d.id)
      let limit := jsOr data.limit 10
      let branch :=
        match env.embedQuery with
        | .error _ => ([], { embedCalls := 1, qdrantCalls := 0 : SearchTrace })
        | .ok _ =>
          match env.qdrant with
          | .error _ => ([], { embedCalls := 1, qdrantCalls := 1 })
          | .ok qres => (hydrateVector db qres, { embedCalls := 1, qdrantCalls := 1 })
      let keywordResults := keywordSearch db documentIds data.query limit
      let results := combineSearchResults branch.1 keywordResults limit
      .ok ({ results := results, total := results.length, query := data.query }, branch.2)

/-- Request body of `SearchService.askQuestion` (`QuestionInput`). -/
structure QuestionInput where
  question : String
  limit : Option Nat
  documentIds : Option (List String)
deriving Repr, DecidableEq

/-- One cited source of an answer. -/
structure Source where
  chunkId : String
  documentId : String
  documentName : String
  content : String
  pageNumber : Option Nat
deriving Repr, DecidableEq

/-- Response of `askQuestion`, without the timing/token metadata. -/
structure QuestionResponse where
  answer : String
  sources : List Source
  query : String
deriving Repr, DecidableEq

/-- External effects of one `askQuestion` call: the inner search oracles and
the `OpenAIService.generateAnswer` result (answer text and token count). -/
structure AskEnv where
  searchEnv : SearchEnv
  genAnswer : Except String (String × Nat)
deriving Repr, DecidableEq

/-- Trace of one `askQuestion` call: the inner search trace, the number of
generation calls, and the context strings passed to the generator. -/
structure AskTrace where
  searchTrace : SearchTrace
  genCalls : Nat
  genContexts : List String
deriving Repr, DecidableEq

/-- The fixed no-result answer of `askQuestion`. -/
def fallbackAnswer : String :=
  "I could not find any relevant information to answer your question."

/-- One labeled block of the generation context:
`[Source i: documentName, Page N]` then the (truncated) content. -/
def sourceBlock (i : Nat) (r : SearchResult) : String :=
  "[Source " ++ toString (i + 1) ++ ": " ++ r.documentName ++
    (match r.pageNumber with
     | some p => ", Page " ++ toString p
     | none => "") ++ "]\n" ++ r.content

/-- The generation context: the labeled blocks joined by blank lines. -/
def buildContext (results : List SearchResult) : String :=
  String.intercalate "\n\n" (results.enum.map (fun p => sourceBlock p.1 p.2))

/-- `SearchService.askQuestion`: membership check, inner search with
`limit || 5`, the fixed fallback answer with no generation call when the
search came back empty, otherwise one generation call on the assembled
context and the hydrated source list. -/
def askQuestion (env : AskEnv) (db : SearchDb) (workspaceId : String)
    (userId : Option String) (data : QuestionInput) :
    Except String (QuestionResponse × AskTrace) :=
  if !(memberOk db workspaceId userId) then
    .error "You are not a member of this workspace"
  else
    match search env.searchEnv db workspaceId userId
        { query := data.question, limit := some (jsOr data.limit 5),
          documentIds := data.documentIds } with
    | .error e => .error e
    | .ok sr =>
      if sr.1.results.isEmpty then
        .ok ({ answer := fallbackAnswer, sources := [], query := data.question },
             { searchTrace := sr.2, genCalls := 0, genContexts := [] })
      else
        match env.genAnswer with
        | .error e => .error e
        | .ok ga =>
          .ok ({ answer := ga.1,
                 sources := sr.1.results.map (fun r =>
                   { chunkId := r.chunkId, documentId := r.documentId,
                     documentName := r.documentName, content := r.content,
                     pageNumber := r.pageNumber }),
                 query := data.question },
               { searchTrace := sr.2, genCalls := 1,
                 genContexts := [buildContext sr.1.results] })

/-- A workspace database with no documents at all. -/
def dbNoDocs : SearchDb := { documents := [], chunks := [], memberships := [] }

/-- Search oracles that succeed: one query embedding, one Qdrant hit `c1`. -/
def envSearchOk : SearchEnv := { embedQuery := .ok [1], qdrant := .ok [("c1", 9 / 10)] }

/-- A processed document of workspace `w1`. -/
def docD1 : DocumentRec :=
  { id := "d1", name := "Doc One", workspaceId := "w1", status := .PROCESSED, deleted := false }

/-- The single chunk of `d1`. -/
def chunkC1 : SChunkRow :=
  { id := "c1", documentId := "d1", content := "alpha beta", pageNumber := some 1,
    sectionTitle := none, hasEmbedding := true, deleted := false }

/-- A workspace database with one processed document and one chunk. -/
def dbOne : SearchDb := { documents := [docD1], chunks := [chunkC1], memberships := [] }

/-- A search request for `alpha` with defaults. -/
def inputA : SearchInput := { query := "alpha", limit := none, documentIds := none }

/-- The hit `c1` with its fused RRF score (rank 0 in both branches):
`1/61 + 1/61`. -/
def resA : SearchResult :=
  { chunkId := "c1", documentId := "d1", documentName := "Doc One",
    content := "alpha beta", score := 2 / 61, pageNumber := some 1, sectionTitle := none }

/-- Expected output of the concrete `search` run on `dbOne`. -/
def sA : SearchResponse × SearchTrace :=
  ({ results := [resA], total := 1, query := "alpha" },
   { embedCalls := 1, qdrantCalls := 1 })

/-- Question oracles: the inner search oracles plus a generated answer. -/
def askEnvA : AskEnv := { searchEnv := envSearchOk, genAnswer := .ok ("ans", 7) }

/-- A question request with defaults. -/
def qInputA : QuestionInput := { question := "alpha", limit := none, documentIds := none }

/-- The source entry hydrated from `c1`. -/
def srcA : Source :=
  { chunkId := "c1", documentId := "d1", documentName := "Doc One",
    content := "alpha beta", pageNumber := some 1 }

/-- Expected output of the concrete `askQuestion` run on `dbOne`. -/
def qA : QuestionResponse × AskTrace :=
  ({ answer := "ans", sources := [srcA], query := "alpha" },
   { searchTrace := { embedCalls := 1, qdrantCalls := 1 }, genCalls := 1,
     genContexts := [buildContext [resA]] })

/-- The Qdrant point the worker builds for the single `hello` chunk. -/
def pointHello : QdrantPoint :=
  { id := 0, vector := [1], payloadDocumentId := "doc1", payloadWorkspaceId := "w1",
    payloadChunkIndex := 0, payloadContent := "hello".toList, payloadPageNumber := none }

/-- A branch result with a given chunk id and raw branch score. -/
def mkRes (cid : String) (sc : ℚ) : SearchResult :=
  { chunkId := cid, documentId := "d", documentName := "n", content := "x",
    score := sc, pageNumber := none, sectionTitle := none }

/-- The semantic rank list `[A, B, C]` of the crafted RRF example. -/
def exSem : List SearchResult :=
  [mkRes "A" (9 / 10), mkRes "B" (8 / 10), mkRes "C" (7 / 10)]

/-- The lexical rank list `[B, D]` of the crafted RRF example. -/
def exLex : List SearchResult :=
  [mkRes "B" (1 / 2), mkRes "D" (9 / 20)]

end DocSearch

namespace DocSearch

theorem chunkStep_currentIndex (text : List Char) (opts : ChunkOptions) (s : ChunkState) :
    (chunkStep text opts s).currentIndex = stepIndex text opts s.currentIndex := rfl

theorem chunkLoop_stuck (text : List Char) (opts : ChunkOptions) (c : Nat)
    (hc : c < text.length) (hfix : stepIndex text opts c = c) :
    ∀ fuel s, s.currentIndex = c → chunkLoop text opts fuel s = none := by
  intro fuel
  induction fuel with
  | zero => intro s hs; simp [chunkLoop, hs, hc]
  | succ n ih =>
    intro s hs
    have hstep : (chunkStep text opts s).currentIndex = c := by
      rw [chunkStep_currentIndex, hs, hfix]
    simp only [chunkLoop, hs, hc, if_pos]
    exact ih _ hstep

/-- C1: the claim says `chunkText` terminates for every input, with the cursor
never moving backward past the previous cursor, and that `chunkOverlap ≥
maxChunkSize` fails fast. In the code, once the window reaches the end of the
text the cursor is set to `text.length - overlap` (clamped at 0), which is
below `text.length` again, so the loop never terminates — here shown on the
worker's own options (`maxChunkSize 1000, chunkOverlap 200`, a valid input
with overlap < maxChunkSize) and the 11-character text "hello world": the
cursor sticks at 0 and no fuel finishes the loop. -/
theorem chunkText_c1_nonterminating :
    chunkTextDiverges exampleTextC1 workerChunkOptions ∧
    workerChunkOptions.chunkOverlap < workerChunkOptions.maxChunkSize ∧
    exampleTextC1.length ≠ 0 := by
  refine ⟨fun fuel => ?_, by decide, by decide⟩
  simpa [chunkText] using
    chunkLoop_stuck exampleTextC1 workerChunkOptions 0 (by decide) (by decide) fuel
      { currentIndex := 0, chunkIndex := 0, chunks := [] } rfl

/-- C6: empty text does yield zero chunks, but a non-empty text strictly
shorter than `maxChunkSize` (with `chunkOverlap < maxChunkSize`) does not
yield one chunk: the loop never terminates, because after the single window
`chunkEnd = text.length` the cursor `chunkEnd - overlap` clamps back to 0.
Shown on the two-character text "ab" with the worker's options. -/
theorem chunkText_c6_empty_and_short :
    (∀ fuel, chunkText [] workerChunkOptions fuel = some []) ∧
    chunkTextDiverges exampleTextC6 workerChunkOptions ∧
    exampleTextC6.length ≠ 0 ∧
    exampleTextC6.length < workerChunkOptions.maxChunkSize ∧
    workerChunkOptions.chunkOverlap < workerChunkOptions.maxChunkSize := by
  refine ⟨?_, fun fuel => ?_, by decide, by decide, by decide⟩
  · intro fuel; cases fuel <;> rfl
  · simpa [chunkText] using
      chunkLoop_stuck exampleTextC6 workerChunkOptions 0 (by decide) (by decide) fuel
        { currentIndex := 0, chunkIndex := 0, chunks := [] } rfl

theorem updateIngestionStatus_statusWrites (db : Db) (st : IngestionStatus)
    (e : Option String) (m : Option StatusMetadata) :
    (updateIngestionStatus db st e m).statusWrites = db.statusWrites ++ [st] := rfl

theorem createChunksLoop_statusWrites (documentId workspaceId : String)
    (pageCount : Option Nat) (textLen : Nat) :
    ∀ (pairs : List (TextChunk × List ℚ)) (db : Db) (acc : List QdrantPoint),
      ((createChunksLoop documentId workspaceId pageCount textLen db acc pairs).1).statusWrites
        = db.statusWrites := by
  intro pairs
  induction pairs with
  | nil => intro db acc; rfl
  | cons p rest ih =>
    intro db acc
    obtain ⟨chunk, emb⟩ := p
    cases hb : db.chunks.any
        (fun c => c.documentId = documentId && c.chunkIndex = chunk.chunkIndex) with
    | true => simp [createChunksLoop, hb]
    | false => simp [createChunksLoop, hb, ih]

theorem runIngestCore_ok_statusWrites (env : WorkerEnv) (job : JobData) (db : Db)
    (r : IngestResult) (h : (runIngestCore env job db).2 = .ok r) :
    (runIngestCore env job db).1.statusWrites = db.statusWrites ++ [.PARSING, .COMPLETED] := by
  revert h
  unfold runIngestCore
  cases hdl : env.download with
  | error e => simp
  | ok buffer =>
  simp only []
  cases hp : parseDocument env.parsers buffer job.documentType with
  | error e => simp
  | ok parsed =>
  simp only []
  cases hemb : env.embeddings with
  | error e => simp
  | ok embeddings =>
  simp only []
  cases hcol : env.collection with
  | error e => simp
  | ok collectionName =>
  simp only []
  rcases hcl : createChunksLoop job.documentId job.workspaceId parsed.pageCount
      (normalizeText parsed.text).length (updateIngestionStatus db .PARSING none none) []
      (env.chunks.enum.map (fun p => (p.2, embeddings.getD p.1 []))) with ⟨db2, res⟩
  have hpres := createChunksLoop_statusWrites job.documentId job.workspaceId parsed.pageCount
      (normalizeText parsed.text).length
      (env.chunks.enum.map (fun p => (p.2, embeddings.getD p.1 [])))
      (updateIngestionStatus db .PARSING none none) []
  rw [hcl] at hpres
  simp only [hcl]
  cases res with
  | error e => simp
  | ok points =>
  simp only []
  simp only [Prod.fst] at hpres
  rw [updateIngestionStatus_statusWrites] at hpres
  cases hemp : points.isEmpty with
  | true =>
    intro _
    simp [updateIngestionStatus_statusWrites, hpres]
  | false =>
    cases hup : env.upsert with
    | error e => simp
    | ok u =>
      intro _
      simp [updateIngestionStatus_statusWrites, hpres]

theorem parseDocument_unsupported (o : ParserOracles) (buffer : List Char) (t : DocumentType)
    (h : t.supported = false) :
    parseDocument o buffer t = .error "Failed to parse document" := by
  cases t <;> first
    | exact absurd h (by decide)
    | rfl

/-- On the empty text the modeled chunker does return, with zero chunks, so
`envEmpty`'s chunk oracle is exactly what the worker's `chunkText` call
computes on that input, at every fuel (at the worker's options as at any
other). -/
theorem envEmpty_chunks_agree (opts : ChunkOptions) (fuel : Nat) :
    chunkText [] opts fuel = some envEmpty.chunks := by
  cases fuel <;> rfl

/-- C2: the claim says re-running ingest on an already-COMPLETED document is
a caller-visible no-op because chunk persistence uses upsert-or-replace
semantics rather than blind insert. In the code the persistence step is a
blind `prisma.chunk.create` in a loop: handed a chunk whose
`(documentId, chunkIndex)` pair already has a row — the state a completed
ingestion leaves behind — it raises the unique-constraint error instead of
replacing the row, and the table is left unchanged; the upsert-or-replace
semantics the claim relies on are absent. (The end-to-end re-run the claim
contemplates never reaches this step: a COMPLETED document with a persisted
chunk row has non-empty text, and on every non-empty text the worker's
`chunkText` call diverges — see `chunkTextDiverges` — after the PARSING
write has already flipped the document out of COMPLETED, so that run is not
a caller-visible no-op either; only empty-text documents, which have zero
chunks, can ever re-complete.) -/
theorem chunk_persistence_blind_insert :
    (dbCompleted.chunks.any (fun c =>
        c.documentId = "doc1" && c.chunkIndex = 0)) = true ∧
    (createChunksLoop "doc1" "w1" none 5 dbCompleted []
        [({ text := "hello".toList, startIndex := 0, endIndex := 5,
            chunkIndex := 0 }, [1])]).2 =
      .error "Unique constraint failed on the fields: (documentId, chunkIndex)" ∧
    (createChunksLoop "doc1" "w1" none 5 dbCompleted []
        [({ text := "hello".toList, startIndex := 0, endIndex := 5,
            chunkIndex := 0 }, [1])]).1 = dbCompleted := by decide

/-- C3: the claim says a successful run persists the status sequence
PARSING, CHUNKING, EMBEDDING, INDEXING, COMPLETED. In the code the worker
only calls `updateIngestionStatus` twice on the success path: PARSING at the
start and COMPLETED at the end; the intermediate statuses are never written.
Amended: on every successful run the persisted sequence is exactly PARSING
then COMPLETED. -/
theorem ingest_status_write_sequence (env : WorkerEnv) (job : JobData) (db : Db)
    (h : ∃ r, (runIngest env job db).2 = Except.ok r) :
    (runIngest env job db).1.statusWrites = db.statusWrites ++ [.PARSING, .COMPLETED] := by
  obtain ⟨r, h⟩ := h
  unfold runIngest at h ⊢
  rcases hco : runIngestCore env job db with ⟨db', res⟩
  rw [hco] at h
  cases res with
  | error e => simp at h
  | ok v =>
    have h2 := runIngestCore_ok_statusWrites env job db v (by rw [hco])
    rw [hco] at h2
    simpa using h2

/-- C3 witness: a concrete successful run — an empty-text document, the one
kind of document the program's chunker lets a run complete on — starting
from an empty write trace ends with exactly the writes PARSING, COMPLETED. -/
theorem ingest_status_write_sequence_witness :
    (runIngest envEmpty jobTxt dbFresh).1.statusWrites =
      dbFresh.statusWrites ++ [IngestionStatus.PARSING, .COMPLETED] :=
  ingest_status_write_sequence envEmpty jobTxt dbFresh
    ⟨{ chunkCount := 0, embeddingCount := 0 }, by decide⟩

/-- C3 counterexample: the successful run of an empty-text document (on any
non-empty text no successful run exists, the chunker diverging) writes only
PARSING, COMPLETED, which differs from the claimed five-element sequence. -/
theorem ingest_status_write_sequence_cex :
    (runIngest envEmpty jobTxt dbFresh).2 = .ok { chunkCount := 0, embeddingCount := 0 } ∧
    (runIngest envEmpty jobTxt dbFresh).1.statusWrites = [.PARSING, .COMPLETED] ∧
    ([IngestionStatus.PARSING, .COMPLETED] ≠
      [.PARSING, .CHUNKING, .EMBEDDING, .INDEXING, .COMPLETED]) := by decide

/-- C4 (amended): for a job whose declared type has no registered extractor,
ingest fails with the generic error `Failed to parse document` (the
unsupported-type message is swallowed by `parseDocument`'s catch-all), the
document ends with ingestionStatus FAILED and that generic message as
`ingestionError`, and no chunk rows are persisted. -/
theorem ingest_unsupported_type (env : WorkerEnv) (job : JobData) (db : Db)
    (hty : job.documentType.supported = false) (buf : List Char)
    (hdl : env.download = .ok buf) :
    (runIngest env job db).2 = .error "Failed to parse document" ∧
    (runIngest env job db).1.doc.ingestionStatus = .FAILED ∧
    (runIngest env job db).1.doc.status = .FAILED ∧
    (runIngest env job db).1.doc.ingestionError = some "Failed to parse document" ∧
    (runIngest env job db).1.chunks = db.chunks := by
  have hcore : runIngestCore env job db =
      (updateIngestionStatus db .PARSING none none, .error "Failed to parse document") := by
    unfold runIngestCore
    rw [hdl]
    simp [parseDocument_unsupported env.parsers buf job.documentType hty]
  unfold runIngest
  rw [hcore]
  refine ⟨rfl, ?_, ?_, ?_, ?_⟩ <;> simp [updateIngestionStatus]

/-- C4 witness: concrete run of a PPTX-typed job through the worker. -/
theorem ingest_unsupported_type_witness :
    (runIngest envOk jobPptx dbFresh).2 = .error "Failed to parse document" ∧
    (runIngest envOk jobPptx dbFresh).1.doc.ingestionStatus = .FAILED ∧
    (runIngest envOk jobPptx dbFresh).1.doc.status = .FAILED ∧
    (runIngest envOk jobPptx dbFresh).1.doc.ingestionError = some "Failed to parse document" ∧
    (runIngest envOk jobPptx dbFresh).1.chunks = dbFresh.chunks :=
  ingest_unsupported_type envOk jobPptx dbFresh (by decide) ("hello".toList) (by decide)

/-- C4 counterexample: for a PPTX job the recorded `ingestionError` is the
generic `Failed to parse document`, not the unsupported-type message the
claim requires. -/
theorem ingest_unsupported_type_cex :
    (runIngest envOk jobPptx dbFresh).2 = .error "Failed to parse document" ∧
    (runIngest envOk jobPptx dbFresh).1.doc.ingestionError = some "Failed to parse document" ∧
    ("Failed to parse document" ≠ "Unsupported file type: " ++ DocumentType.PPTX.name) := by
  decide

/-- C7: whenever any stage of the worker throws, the catch block sets the
document's ingestionStatus (and business status) to FAILED, records the
thrown error's message as `ingestionError`, appends a FAILED status write,
and re-throws the same error (the returned error equals the recorded one). -/
theorem ingest_failure_semantics (env : WorkerEnv) (job : JobData) (db : Db) (e : String)
    (h : (runIngest env job db).2 = .error e) :
    (runIngest env job db).1.doc.ingestionStatus = .FAILED ∧
    (runIngest env job db).1.doc.status = .FAILED ∧
    (runIngest env job db).1.doc.ingestionError = some e ∧
    (runIngest env job db).1.statusWrites =
      (runIngestCore env job db).1.statusWrites ++ [.FAILED] := by
  unfold runIngest at h ⊢
  rcases hco : runIngestCore env job db with ⟨db', res⟩
  rw [hco] at h
  cases res with
  | ok v => simp at h
  | error e' =>
    obtain rfl : e' = e := by simpa using h
    refine ⟨?_, ?_, ?_, ?_⟩ <;> simp [updateIngestionStatus]

/-- C7 witness: a run whose S3 download fails ends FAILED with the download
error recorded and re-thrown. -/
theorem ingest_failure_semantics_witness :
    (runIngest envS3Down jobTxt dbFresh).1.doc.ingestionStatus = .FAILED ∧
    (runIngest envS3Down jobTxt dbFresh).1.doc.status = .FAILED ∧
    (runIngest envS3Down jobTxt dbFresh).1.doc.ingestionError = some "Failed to download file" ∧
    (runIngest envS3Down jobTxt dbFresh).1.statusWrites =
      (runIngestCore envS3Down jobTxt dbFresh).1.statusWrites ++ [.FAILED] :=
  ingest_failure_semantics envS3Down jobTxt dbFresh "Failed to download file" (by decide)

/-- C8: when the membership check passes and the resolved candidate document
set of the workspace is empty, `search` returns `results = [], total = 0`
immediately, with zero calls to the embedding provider and zero calls to the
vector index. -/
theorem search_empty_candidates (env : SearchEnv) (db : SearchDb) (workspaceId : String)
    (userId : Option String) (data : SearchInput)
    (hmem : memberOk db workspaceId userId = true)
    (hempty : resolvedDocuments db workspaceId data.documentIds = []) :
    search env db workspaceId userId data =
      .ok ({ results := [], total := 0, query := data.query },
           { embedCalls := 0, qdrantCalls := 0 }) := by
  unfold search
  rw [hmem, hempty]
  simp

/-- C8 witness: a workspace with no documents at all. -/
theorem search_empty_candidates_witness :
    memberOk dbNoDocs "w1" none = true ∧
    resolvedDocuments dbNoDocs "w1" inputA.documentIds = [] ∧
    search envSearchOk dbNoDocs "w1" none inputA =
      .ok ({ results := [], total := 0, query := inputA.query },
           { embedCalls := 0, qdrantCalls := 0 }) :=
  ⟨by decide, by decide,
    search_empty_candidates envSearchOk dbNoDocs "w1" none inputA (by decide) (by decide)⟩

/-- C9: when the inner search of `askQuestion` returns zero results, the
response is the fixed fallback answer with an empty source list, and the
generation provider is never called. -/
theorem askQuestion_no_results (env : AskEnv) (db : SearchDb) (workspaceId : String)
    (userId : Option String) (data : QuestionInput) (s : SearchResponse × SearchTrace)
    (hmem : memberOk db workspaceId userId = true)
    (hsearch : search env.searchEnv db workspaceId userId
        { query := data.question, limit := some (jsOr data.limit 5),
          documentIds := data.documentIds } = .ok s)
    (hres : s.1.results = []) :
    askQuestion env db workspaceId userId data =
      .ok ({ answer := fallbackAnswer, sources := [], query := data.question },
           { searchTrace := s.2, genCalls := 0, genContexts := [] }) := by
  unfold askQuestion
  rw [hmem, hsearch]
  simp [hres]

/-- C9 witness: a question over a workspace with no documents gets the
fallback answer, no sources, and no generation call. -/
theorem askQuestion_no_results_witness :
    askQuestion askEnvA dbNoDocs "w1" none qInputA =
      .ok ({ answer := fallbackAnswer, sources := [], query := qInputA.question },
           { searchTrace := { embedCalls := 0, qdrantCalls := 0 },
             genCalls := 0, genContexts := [] }) :=
  askQuestion_no_results askEnvA dbNoDocs "w1" none qInputA
    ({ results := [], total := 0, query := qInputA.question },
     { embedCalls := 0, qdrantCalls := 0 })
    (by decide) (by decide) (by decide)

theorem mem_insertByScore (x e : SearchResult × ℚ) :
    ∀ s, e ∈ insertByScore x s ↔ e = x ∨ e ∈ s := by
  intro s
  induction s with
  | nil => simp [insertByScore]
  | cons y ys ih =>
    by_cases h : y.2 ≤ x.2
    · simp [insertByScore, h]
    · simp [insertByScore, h, ih]
      tauto

theorem mem_sortByScoreDesc (e : SearchResult × ℚ) :
    ∀ l, e ∈ sortByScoreDesc l ↔ e ∈ l := by
  intro l
  induction l with
  | nil => simp [sortByScoreDesc]
  | cons x xs ih =>
    have hstep : sortByScoreDesc (x :: xs) = insertByScore x (sortByScoreDesc xs) := rfl
    rw [hstep, mem_insertByScore]
    simp [ih]

theorem mem_upsertScore_fst {m : List (SearchResult × ℚ)} {r : SearchResult} {inc : ℚ}
    {e : SearchResult × ℚ} (he : e ∈ upsertScore m r inc) :
    (∃ e' ∈ m, e.1 = e'.1) ∨ e.1 = r := by
  unfold upsertScore at he
  by_cases h : m.any (fun e => e.1.chunkId == r.chunkId)
  · rw [if_pos h] at he
    rcases List.mem_map.mp he with ⟨e', he', heq⟩
    left
    refine ⟨e', he', ?_⟩
    rw [← heq]
    by_cases hc : (e'.1.chunkId == r.chunkId) = true <;> simp [hc]
  · rw [if_neg h] at he
    rcases List.mem_append.mp he with h1 | h1
    · left; exact ⟨e, h1, rfl⟩
    · right
      simp only [List.mem_singleton] at h1
      rw [h1]

theorem mem_rrfFoldFrom_fst {rs : List SearchResult} :
    ∀ (n : Nat) (m : List (SearchResult × ℚ)) (e : SearchResult × ℚ),
      e ∈ rrfFoldFrom n m rs → (∃ e' ∈ m, e.1 = e'.1) ∨ e.1 ∈ rs := by
  induction rs with
  | nil => intro n m e he; left; exact ⟨e, he, rfl⟩
  | cons r rs ih =>
    intro n m e he
    have hstep : rrfFoldFrom n m (r :: rs)
        = rrfFoldFrom (n + 1) (upsertScore m r (1 / (60 + (n : ℚ) + 1))) rs := rfl
    rw [hstep] at he
    rcases ih (n + 1) _ e he with ⟨e', he', hfst⟩ | h2
    · rcases mem_upsertScore_fst he' with ⟨e'', he'', hf2⟩ | hr
      · left; exact ⟨e'', he'', by rw [hfst, hf2]⟩
      · right; rw [hfst, hr]; exact List.mem_cons_self _ _
    · right; exact List.mem_cons_of_mem _ h2

theorem rrfFold_eq_from (m : List (SearchResult × ℚ)) (rs : List SearchResult) :
    rrfFold m rs = rrfFoldFrom 0 m rs := rfl

theorem combine_mem {v k : List SearchResult} {limit : Nat} {r : SearchResult}
    (hr : r ∈ combineSearchResults v k limit) :
    ∃ r', (r' ∈ v ∨ r' ∈ k) ∧ r = { r' with score := r.score } := by
  unfold combineSearchResults at hr
  rcases List.mem_map.mp hr with ⟨e, he, heq⟩
  have he2 : e ∈ sortByScoreDesc (rrfFold (rrfFold [] v) k) := List.mem_of_mem_take he
  rw [mem_sortByScoreDesc] at he2
  rw [rrfFold_eq_from] at he2
  have hk := mem_rrfFoldFrom_fst 0 (rrfFold [] v) e he2
  refine ⟨e.1, ?_, ?_⟩
  · rcases hk with ⟨e', he', hfst⟩ | h2
    · rw [rrfFold_eq_from] at he'
      rcases mem_rrfFoldFrom_fst 0 [] e' he' with ⟨e'', he'', _⟩ | h3
      · simp at he''
      · left; rw [hfst]; exact h3
    · right; exact h2
  · rw [← heq]

theorem snd_mem_of_mem_enumFrom {α : Type} {p : Nat × α} :
    ∀ {n : Nat} {l : List α}, p ∈ List.enumFrom n l → p.2 ∈ l := by
  intro n l
  induction l generalizing n with
  | nil => simp [List.enumFrom]
  | cons x xs ih =>
    intro h
    simp only [List.enumFrom] at h
    rcases List.mem_cons.mp h with h | h
    · rw [h]; exact List.mem_cons_self _ _
    · exact List.mem_cons_of_mem _ (ih h)

theorem hydrateVector_mem {db : SearchDb} {q : List (String × ℚ)} {r : SearchResult}
    (hr : r ∈ hydrateVector db q) :
    ∃ c ∈ db.chunks, r.chunkId = c.id ∧ r.content = takeChars c.content 500 := by
  simp only [hydrateVector] at hr
  rcases List.mem_filterMap.mp hr with ⟨qr, hqr, hmatch⟩
  rcases hfind : List.find? (fun c => c.id == qr.1)
      (db.chunks.filter (fun c => (q.map (fun qr => qr.1)).contains c.id && !c.deleted)) with
    _ | c
  · rw [hfind] at hmatch; simp at hmatch
  · rw [hfind] at hmatch
    simp only [Option.some.injEq] at hmatch
    have hc : c ∈ db.chunks :=
      List.mem_of_mem_filter (List.mem_of_find?_eq_some hfind)
    exact ⟨c, hc, by rw [← hmatch], by rw [← hmatch]⟩

theorem keywordSearch_mem {db : SearchDb} {ids : List String} {q : String} {l : Nat}
    {r : SearchResult} (hr : r ∈ keywordSearch db ids q l) :
    ∃ c ∈ db.chunks, r.chunkId = c.id ∧ r.content = takeChars c.content 500 := by
  simp only [keywordSearch] at hr
  rcases List.mem_map.mp hr with ⟨p, hp, heq⟩
  have h2 := snd_mem_of_mem_enumFrom hp
  have h3 : p.2 ∈ db.chunks := List.mem_of_mem_filter (List.mem_of_mem_take h2)
  exact ⟨p.2, h3, by rw [← heq], by rw [← heq]⟩

theorem search_results_trunc {env : SearchEnv} {db : SearchDb} {workspaceId : String}
    {userId : Option String} {data : SearchInput} {s : SearchResponse × SearchTrace}
    (hs : search env db workspaceId userId data = .ok s) {r : SearchResult}
    (hr : r ∈ s.1.results) :
    ∃ c ∈ db.chunks, r.chunkId = c.id ∧ r.content = takeChars c.content 500 := by
  unfold search at hs
  split at hs
  · exact absurd hs (by simp)
  · cases hemp : (resolvedDocuments db workspaceId data.documentIds).isEmpty with
    | true =>
      rw [if_pos hemp] at hs
      simp only [Except.ok.injEq] at hs
      subst hs
      simp at hr
    | false =>
      rw [if_neg (by simp [hemp])] at hs
      simp only [Except.ok.injEq] at hs
      subst hs
      rcases combine_mem hr with ⟨r', hr', heqr⟩
      have hid : r.chunkId = r'.chunkId := by rw [heqr]
      have hcont : r.content = r'.content := by rw [heqr]
      rcases hr' with hv | hk
      · cases he : env.embedQuery with
        | error e => rw [he] at hv; simp at hv
        | ok emb =>
          rw [he] at hv
          cases hq : env.qdrant with
          | error e => rw [hq] at hv; simp at hv
          | ok qres =>
            rw [hq] at hv
            rcases hydrateVector_mem hv with ⟨c, hc, h1, h2⟩
            exact ⟨c, hc, hid.trans h1, hcont.trans h2⟩
      · rcases keywordSearch_mem hk with ⟨c, hc, h1, h2⟩
        exact ⟨c, hc, hid.trans h1, hcont.trans h2⟩

theorem updateIngestionStatus_qdrantUpserts (db : Db) (st : IngestionStatus)
    (e : Option String) (m : Option StatusMetadata) :
    (updateIngestionStatus db st e m).qdrantUpserts = db.qdrantUpserts := rfl

theorem createChunksLoop_qdrantUpserts (documentId workspaceId : String)
    (pageCount : Option Nat) (textLen : Nat) :
    ∀ (pairs : List (TextChunk × List ℚ)) (db : Db) (acc : List QdrantPoint),
      ((createChunksLoop documentId workspaceId pageCount textLen db acc pairs).1).qdrantUpserts
        = db.qdrantUpserts := by
  intro pairs
  induction pairs with
  | nil => intro db acc; rfl
  | cons p rest ih =>
    intro db acc
    obtain ⟨chunk, emb⟩ := p
    cases hb : db.chunks.any
        (fun c => c.documentId = documentId && c.chunkIndex = chunk.chunkIndex) with
    | true => simp [createChunksLoop, hb]
    | false => simp [createChunksLoop, hb, ih]

theorem createChunksLoop_points (documentId workspaceId : String)
    (pageCount : Option Nat) (textLen : Nat) :
    ∀ (pairs : List (TextChunk × List ℚ)) (db : Db) (acc : List QdrantPoint)
      (db' : Db) (points : List QdrantPoint),
      createChunksLoop documentId workspaceId pageCount textLen db acc pairs
        = (db', .ok points) →
      ∀ p ∈ points, p ∈ acc ∨ ∃ pair ∈ pairs, p.payloadContent = pair.1.text.take 500 := by
  intro pairs
  induction pairs with
  | nil =>
    intro db acc db' points h p hp
    simp only [createChunksLoop, Prod.mk.injEq, Except.ok.injEq] at h
    left
    rw [h.2]
    exact hp
  | cons pr rest ih =>
    intro db acc db' points h p hp
    obtain ⟨chunk, emb⟩ := pr
    cases hb : db.chunks.any
        (fun c => c.documentId = documentId && c.chunkIndex = chunk.chunkIndex) with
    | true => simp [createChunksLoop, hb] at h
    | false =>
      simp only [createChunksLoop, hb, Bool.false_eq_true, if_false] at h
      rcases ih _ _ _ _ h p hp with hacc | ⟨pair, hpair, hpc⟩
      · rcases List.mem_append.mp hacc with h1 | h1
        · left; exact h1
        · right
          simp only [List.mem_singleton] at h1
          exact ⟨(chunk, emb), List.mem_cons_self _ _, by rw [h1]⟩
      · right; exact ⟨pair, List.mem_cons_of_mem _ hpair, hpc⟩

theorem runIngestCore_upserts (env : WorkerEnv) (job : JobData) (db : Db) :
    ∀ p ∈ (runIngestCore env job db).1.qdrantUpserts,
      p ∈ db.qdrantUpserts ∨ ∃ t ∈ env.chunks, p.payloadContent = t.text.take 500 := by
  unfold runIngestCore
  cases hdl : env.download with
  | error e => intro p hp; left; exact hp
  | ok buffer =>
  simp only []
  cases hp1 : parseDocument env.parsers buffer job.documentType with
  | error e => intro p hp; left; exact hp
  | ok parsed =>
  simp only []
  cases hemb : env.embeddings with
  | error e => intro p hp; left; exact hp
  | ok embeddings =>
  simp only []
  cases hcol : env.collection with
  | error e => intro p hp; left; exact hp
  | ok collectionName =>
  simp only []
  rcases hcl : createChunksLoop job.documentId job.workspaceId parsed.pageCount
      (normalizeText parsed.text).length (updateIngestionStatus db .PARSING none none) []
      (env.chunks.enum.map (fun p => (p.2, embeddings.getD p.1 []))) with ⟨db2, res⟩
  have hpres := createChunksLoop_qdrantUpserts job.documentId job.workspaceId parsed.pageCount
      (normalizeText parsed.text).length
      (env.chunks.enum.map (fun p => (p.2, embeddings.getD p.1 [])))
      (updateIngestionStatus db .PARSING none none) []
  rw [hcl] at hpres
  simp only [updateIngestionStatus_qdrantUpserts] at hpres
  simp only [hcl]
  have hnew : ∀ p ∈ (db2.qdrantUpserts : List QdrantPoint), p ∈ db.qdrantUpserts := by
    intro p hp; rw [hpres] at hp; exact hp
  cases res with
  | error e => intro p hp; left; exact hnew p hp
  | ok points =>
  simp only []
  have hpts : ∀ p ∈ points,
      ∃ t ∈ env.chunks, p.payloadContent = t.text.take 500 := by
    intro p hp
    rcases createChunksLoop_points _ _ _ _ _ _ _ _ _ hcl p hp with habs | ⟨pair, hpair, hpc⟩
    · simp at habs
    · rcases List.mem_map.mp hpair with ⟨q, hq, heq⟩
      refine ⟨q.2, snd_mem_of_mem_enumFrom hq, ?_⟩
      rw [hpc, ← heq]
  cases hemp : points.isEmpty with
  | true =>
    intro p hp
    left
    exact hnew p hp
  | false =>
    cases hup : env.upsert with
    | error e =>
      intro p hp
      rcases List.mem_append.mp hp with h1 | h1
      · left; exact hnew p h1
      · right; exact hpts p h1
    | ok u =>
      intro p hp
      simp only [updateIngestionStatus_qdrantUpserts] at hp
      rcases List.mem_append.mp hp with h1 | h1
      · left; exact hnew p h1
      · right; exact hpts p h1

theorem runIngest_upserts (env : WorkerEnv) (job : JobData) (db : Db) :
    ∀ p ∈ (runIngest env job db).1.qdrantUpserts,
      p ∈ db.qdrantUpserts ∨ ∃ t ∈ env.chunks, p.payloadContent = t.text.take 500 := by
  intro p hp
  have hcore := runIngestCore_upserts env job db
  unfold runIngest at hp
  rcases hco : runIngestCore env job db with ⟨db', res⟩
  rw [hco] at hcore hp
  cases res with
  | ok v => exact hcore p hp
  | error e =>
    simp only [updateIngestionStatus_qdrantUpserts] at hp
    exact hcore p hp

/-- C10: result contents are truncated previews. Every result of `search`
and every source of `askQuestion` carries `content.take 500` of the
underlying chunk row (both hydration branches truncate with
`substring(0, 500)`); every context handed to the generation provider is
assembled from such results; and every point the worker upserts into the
vector store carries a 500-character payload preview of its chunk. -/
theorem content_truncated_to_500 :
    (∀ (env : SearchEnv) (db : SearchDb) (workspaceId : String) (userId : Option String)
        (data : SearchInput) (s : SearchResponse × SearchTrace),
      search env db workspaceId userId data = .ok s →
      ∀ r ∈ s.1.results, ∃ c ∈ db.chunks, r.chunkId = c.id ∧ r.content = takeChars c.content 500) ∧
    (∀ (env : AskEnv) (db : SearchDb) (workspaceId : String) (userId : Option String)
        (data : QuestionInput) (qs : QuestionResponse × AskTrace),
      askQuestion env db workspaceId userId data = .ok qs →
      (∀ src ∈ qs.1.sources,
        ∃ c ∈ db.chunks, src.chunkId = c.id ∧ src.content = takeChars c.content 500) ∧
      (∀ ctx ∈ qs.2.genContexts, ∃ rs, ctx = buildContext rs ∧
        ∀ r ∈ rs, ∃ c ∈ db.chunks, r.chunkId = c.id ∧ r.content = takeChars c.content 500)) ∧
    (∀ (env : WorkerEnv) (job : JobData) (db : Db),
      ∀ p ∈ (runIngest env job db).1.qdrantUpserts,
        p ∈ db.qdrantUpserts ∨ ∃ t ∈ env.chunks, p.payloadContent = t.text.take 500) := by
  refine ⟨fun env db ws uid data s hs r hr => search_results_trunc hs hr, ?_, runIngest_upserts⟩
  intro env db ws uid data qs hq
  unfold askQuestion at hq
  split at hq
  · exact absurd hq (by simp)
  · revert hq
    rcases hsr : search env.searchEnv db ws uid
        { query := data.question, limit := some (jsOr data.limit 5),
          documentIds := data.documentIds } with e | sr
    · intro hq; exact absurd hq (by simp)
    · intro hq
      dsimp only [] at hq
      cases hemp : sr.1.results.isEmpty with
      | true =>
        rw [if_pos hemp] at hq
        simp only [Except.ok.injEq] at hq
        subst hq
        constructor
        · intro src hsrc; simp at hsrc
        · intro ctx hctx; simp at hctx
      | false =>
        rw [if_neg (by simp [hemp])] at hq
        cases hga : env.genAnswer with
        | error e => rw [hga] at hq; simp at hq
        | ok ga =>
          rw [hga] at hq
          simp only [Except.ok.injEq] at hq
          subst hq
          constructor
          · intro src hsrc
            rcases List.mem_map.mp hsrc with ⟨r, hr, heq⟩
            rcases search_results_trunc hsr hr with ⟨c, hc, h1, h2⟩
            exact ⟨c, hc, by rw [← heq]; exact h1, by rw [← heq]; exact h2⟩
          · intro ctx hctx
            simp only [List.mem_singleton] at hctx
            refine ⟨sr.1.results, hctx, ?_⟩
            intro r hr
            exact search_results_trunc hsr hr

/-- C10 witness: the concrete search/question run over `dbOne` and the
concrete worker run, instantiating each conjunct. -/
theorem content_truncated_to_500_witness :
    (search envSearchOk dbOne "w1" none inputA = .ok sA ∧
      ∃ c ∈ dbOne.chunks, resA.chunkId = c.id ∧ resA.content = takeChars c.content 500) ∧
    (askQuestion askEnvA dbOne "w1" none qInputA = .ok qA ∧
      ∃ c ∈ dbOne.chunks, srcA.chunkId = c.id ∧ srcA.content = takeChars c.content 500) ∧
    (pointHello ∈ (runIngest envOk jobTxt dbFresh).1.qdrantUpserts ∧
      ∃ t ∈ envOk.chunks, pointHello.payloadContent = t.text.take 500) := by
  refine ⟨⟨by with_unfolding_all decide, ?_⟩, ⟨by with_unfolding_all decide, ?_⟩,
    ⟨by with_unfolding_all decide, ?_⟩⟩
  · exact content_truncated_to_500.1 envSearchOk dbOne "w1" none inputA sA
      (by with_unfolding_all decide) resA (by with_unfolding_all decide)
  · exact (content_truncated_to_500.2.1 askEnvA dbOne "w1" none qInputA qA
      (by with_unfolding_all decide)).1 srcA (by decide)
  · exact Or.resolve_left
      (content_truncated_to_500.2.2 envOk jobTxt dbFresh pointHello
        (by with_unfolding_all decide)) (by decide)

theorem upsertScore_fst_preserved (r : SearchResult) (inc : ℚ) (x : SearchResult × ℚ) :
    ((if x.1.chunkId == r.chunkId then (x.1, x.2 + inc) else x) : SearchResult × ℚ).1 = x.1 := by
  by_cases h : (x.1.chunkId == r.chunkId) = true <;> simp [h]

theorem lookupScore_upsert (m : List (SearchResult × ℚ)) (r : SearchResult) (inc : ℚ)
    (cid : String) :
    lookupScore (upsertScore m r inc) cid =
      if cid = r.chunkId then some ((lookupScore m cid).getD 0 + inc)
      else lookupScore m cid := by
  unfold upsertScore lookupScore
  by_cases hmem : m.any (fun e => e.1.chunkId == r.chunkId) = true
  · rw [if_pos hmem, List.find?_map]
    have hp : ((fun (e : SearchResult × ℚ) => e.1.chunkId == cid) ∘
        (fun (e : SearchResult × ℚ) =>
          if e.1.chunkId == r.chunkId then (e.1, e.2 + inc) else e))
        = (fun (e : SearchResult × ℚ) => e.1.chunkId == cid) := by
      funext x
      simp only [Function.comp_apply]
      rw [upsertScore_fst_preserved]
    rw [hp]
    by_cases hcid : cid = r.chunkId
    · rw [if_pos hcid]
      have hsome : (m.find? (fun e => e.1.chunkId == cid)).isSome := by
        rw [List.find?_isSome]
        obtain ⟨e0, he0, hpe⟩ := List.any_eq_true.mp hmem
        refine ⟨e0, he0, ?_⟩
        rw [hcid]
        exact hpe
      rcases hfind : m.find? (fun e => e.1.chunkId == cid) with _ | e0
      · rw [hfind] at hsome; simp at hsome
      · rw [hfind]
        have hkey := List.find?_some hfind
        have hkey2 : (e0.1.chunkId == r.chunkId) = true := by
          have h1 : e0.1.chunkId = cid := by simpa using hkey
          rw [h1, ← hcid]
          simp
        have h2 : e0.1.chunkId = r.chunkId := by simpa using hkey2
        simp [h2]
    · rw [if_neg hcid]
      rcases hfind : m.find? (fun e => e.1.chunkId == cid) with _ | e0
      · rw [hfind]; rfl
      · rw [hfind]
        have hkey := List.find?_some hfind
        have hne : (e0.1.chunkId == r.chunkId) = false := by
          have h1 : e0.1.chunkId = cid := by simpa using hkey
          simp [h1]
          exact hcid
        have h2 : ¬ e0.1.chunkId = r.chunkId := by simpa using hne
        simp [h2]
  · rw [if_neg hmem, List.find?_append]
    by_cases hcid : cid = r.chunkId
    · rw [if_pos hcid]
      have hfn : m.find? (fun e => e.1.chunkId == cid) = none := by
        rw [List.find?_eq_none]
        intro x hx hpx
        refine hmem (List.any_eq_true.mpr ⟨x, hx, ?_⟩)
        rw [← hcid]
        exact hpx
      have hrc : (r.chunkId == cid) = true := by simp [hcid]
      rw [hfn]
      simp [List.find?, hrc, hfn]
    · rw [if_neg hcid]
      have hrc : (r.chunkId == cid) = false := by
        simp
        exact fun h => hcid h.symm
      have hsingle : ([(r, inc)] : List (SearchResult × ℚ)).find?
          (fun e => e.1.chunkId == cid) = none := by
        simp [List.find?, hrc]
      rw [hsingle, Option.or_none]

theorem lookupScore_rrfFoldFrom (cid : String) :
    ∀ (rs : List SearchResult), (rs.map (fun r => r.chunkId)).Nodup →
      ∀ (n : Nat) (m : List (SearchResult × ℚ)),
        lookupScore (rrfFoldFrom n m rs) cid =
          match rankOf rs cid with
          | some i => some ((lookupScore m cid).getD 0 + 1 / (60 + ((n + i : Nat) : ℚ) + 1))
          | none => lookupScore m cid := by
  intro rs
  induction rs with
  | nil => intro _ n m; rfl
  | cons r rs ih =>
    intro hnd n m
    have hndc : (r.chunkId :: rs.map (fun r => r.chunkId)).Nodup := by
      simpa only [List.map_cons] using hnd
    have hnd2 := List.nodup_cons.mp hndc
    have hstep : rrfFoldFrom n m (r :: rs)
        = rrfFoldFrom (n + 1) (upsertScore m r (1 / (60 + (n : ℚ) + 1))) rs := rfl
    rw [hstep, ih hnd2.2 (n + 1) _]
    by_cases hcid : cid = r.chunkId
    · have hrnone : rankOf rs cid = none := by
        unfold rankOf
        rw [List.findIdx?_eq_none_iff]
        intro x hx
        simp only [beq_eq_false_iff_ne]
        intro hxe
        exact hnd2.1 (by rw [← hcid, ← hxe]; exact List.mem_map_of_mem _ hx)
      have hr0 : rankOf (r :: rs) cid = some 0 := by
        unfold rankOf
        rw [List.findIdx?_cons, if_pos (by simp [hcid])]
      rw [hrnone, hr0]
      simp only []
      rw [lookupScore_upsert, if_pos hcid]
      norm_num
    · have hrcons : rankOf (r :: rs) cid = (rankOf rs cid).map (fun i => i + 1) := by
        unfold rankOf
        rw [List.findIdx?_cons, if_neg (by simp; exact fun h => hcid h.symm),
          List.findIdx?_start_succ]
      have hm' : lookupScore (upsertScore m r (1 / (60 + (n : ℚ) + 1))) cid
          = lookupScore m cid := by
        rw [lookupScore_upsert, if_neg hcid]
      have hm2 := hm'
      rw [one_div] at hm2
      rcases hrank : rankOf rs cid with _ | i
      · rw [hrcons, hrank]
        simp [hm2]
      · rw [hrcons, hrank]
        have harith : n + 1 + i = n + (i + 1) := by omega
        simp [hm2, harith]

theorem lookupScore_of_mem :
    ∀ (m : List (SearchResult × ℚ)), (keysOf m).Nodup →
      ∀ e ∈ m, lookupScore m e.1.chunkId = some e.2 := by
  intro m
  induction m with
  | nil => intro _ e he; simp at he
  | cons x m ih =>
    intro hnd e he
    have hndc := List.nodup_cons.mp (by simpa only [keysOf, List.map_cons] using hnd)
    rcases List.mem_cons.mp he with rfl | hem
    · unfold lookupScore
      rw [List.find?_cons_of_pos _ (by simp)]
      rfl
    · unfold lookupScore
      have hne : (x.1.chunkId == e.1.chunkId) = false := by
        simp only [beq_eq_false_iff_ne]
        intro hxe
        exact hndc.1 (by rw [hxe]; exact List.mem_map_of_mem _ hem)
      rw [List.find?_cons_of_neg _ (by simp [hne])]
      exact ih hndc.2 e hem

theorem any_key_eq (m : List (SearchResult × ℚ)) (c : String) :
    m.any (fun e => e.1.chunkId == c) = (keysOf m).any (fun x => x == c) := by
  induction m with
  | nil => rfl
  | cons e m ih =>
    simp only [keysOf, List.map_cons, List.any_cons] at ih ⊢
    rw [ih]

theorem keysOf_upsertScore_mem (m : List (SearchResult × ℚ)) (r : SearchResult) (inc : ℚ)
    (h : m.any (fun e => e.1.chunkId == r.chunkId) = true) :
    keysOf (upsertScore m r inc) = keysOf m := by
  unfold upsertScore keysOf
  rw [if_pos h, List.map_map]
  apply List.map_congr_left
  intro e _
  simp only [Function.comp_apply]
  rw [upsertScore_fst_preserved]

theorem keysOf_upsertScore_new (m : List (SearchResult × ℚ)) (r : SearchResult) (inc : ℚ)
    (h : m.any (fun e => e.1.chunkId == r.chunkId) = false) :
    keysOf (upsertScore m r inc) = keysOf m ++ [r.chunkId] := by
  unfold upsertScore keysOf
  rw [if_neg (by simp [h])]
  simp

theorem keysOf_rrfFoldFrom :
    ∀ (rs : List SearchResult), (rs.map (fun r => r.chunkId)).Nodup →
      ∀ (n : Nat) (m : List (SearchResult × ℚ)),
        keysOf (rrfFoldFrom n m rs)
          = keysOf m ++ (rs.map (fun r => r.chunkId)).filter
              (fun c => !(m.any (fun e => e.1.chunkId == c))) := by
  intro rs
  induction rs with
  | nil => intro _ n m; simp [rrfFoldFrom]
  | cons r rs ih =>
    intro hnd n m
    have hndc := List.nodup_cons.mp (by simpa only [List.map_cons] using hnd)
    have hstep : rrfFoldFrom n m (r :: rs)
        = rrfFoldFrom (n + 1) (upsertScore m r (1 / (60 + (n : ℚ) + 1))) rs := rfl
    rw [hstep, ih hndc.2 (n + 1) _]
    by_cases hmem : m.any (fun e => e.1.chunkId == r.chunkId) = true
    · rw [keysOf_upsertScore_mem _ _ _ hmem]
      have hpredf : (fun c => !((upsertScore m r (1 / (60 + (n : ℚ) + 1))).any
            (fun e => e.1.chunkId == c)))
          = (fun c => !(m.any (fun e => e.1.chunkId == c))) := by
        funext c
        rw [any_key_eq, keysOf_upsertScore_mem _ _ _ hmem, ← any_key_eq]
      rw [hpredf, List.map_cons, List.filter_cons_of_neg (by simp [hmem])]
    · have hf : m.any (fun e => e.1.chunkId == r.chunkId) = false := by
        simpa using hmem
      rw [keysOf_upsertScore_new _ _ _ hf]
      have hfilter : (rs.map (fun r => r.chunkId)).filter
            (fun c => !((upsertScore m r (1 / (60 + (n : ℚ) + 1))).any
              (fun e => e.1.chunkId == c)))
          = (rs.map (fun r => r.chunkId)).filter
              (fun c => !(m.any (fun e => e.1.chunkId == c))) := by
        apply List.filter_congr
        intro c hc
        have hcr : (r.chunkId == c) = false := by
          simp only [beq_eq_false_iff_ne]
          intro hrc
          exact hndc.1 (by rw [hrc]; exact hc)
        rw [any_key_eq, keysOf_upsertScore_new _ _ _ hf, List.any_append, ← any_key_eq]
        simp [hcr]
      rw [hfilter, List.map_cons, List.filter_cons_of_pos (by simp [hf])]
      simp

theorem rankOf_eq_none_iff (rs : List SearchResult) (c : String) :
    rankOf rs c = none ↔ c ∉ rs.map (fun r => r.chunkId) := by
  unfold rankOf
  rw [List.findIdx?_eq_none_iff]
  constructor
  · intro h hc
    rcases List.mem_map.mp hc with ⟨x, hx, hxc⟩
    have h2 := h x hx
    rw [hxc] at h2
    simp at h2
  · intro h x hx
    simp only [beq_eq_false_iff_ne]
    intro hxe
    exact h (by rw [← hxe]; exact List.mem_map_of_mem _ hx)

theorem rankOf_isSome_of_mem {v : List SearchResult} {c : String}
    (hc : c ∈ v.map (fun r => r.chunkId)) : (rankOf v c).isSome = true := by
  unfold rankOf
  rw [List.findIdx?_isSome]
  rcases List.mem_map.mp hc with ⟨x, hx, hxc⟩
  exact List.any_eq_true.mpr ⟨x, hx, by simp [hxc]⟩

theorem rankOf_getElem :
    ∀ (v : List SearchResult), (v.map (fun r => r.chunkId)).Nodup →
      ∀ (i : Nat) (h : i < v.length), rankOf v (v[i].chunkId) = some i := by
  intro v
  induction v with
  | nil => intro _ i h; simp at h
  | cons r v ih =>
    intro hv i h
    have hndc := List.nodup_cons.mp (by simpa only [List.map_cons] using hv)
    cases i with
    | zero =>
      unfold rankOf
      rw [List.findIdx?_cons, if_pos (by simp)]
    | succ i =>
      have hi : i < v.length := by simpa using h
      simp only [List.getElem_cons_succ]
      have hne : (r.chunkId == (v[i]).chunkId) = false := by
        simp only [beq_eq_false_iff_ne]
        intro hre
        exact hndc.1 (by rw [hre]; exact List.mem_map_of_mem _ (List.getElem_mem hi))
      unfold rankOf
      rw [List.findIdx?_cons, if_neg (by simp [hne]), List.findIdx?_start_succ]
      have h2 := ih hndc.2 i hi
      unfold rankOf at h2
      rw [h2]
      rfl

theorem pairwise_rankLt_keys (v : List SearchResult)
    (hv : (v.map (fun r => r.chunkId)).Nodup) :
    (v.map (fun r => r.chunkId)).Pairwise
      (fun c1 c2 => rankLt (rankOf v c1) (rankOf v c2)) := by
  rw [List.pairwise_iff_getElem]
  intro i j hi hj hij
  have hi' : i < v.length := by simpa using hi
  have hj' : j < v.length := by simpa using hj
  simp only [List.getElem_map]
  rw [rankOf_getElem v hv i hi', rankOf_getElem v hv j hj']
  exact hij

theorem keysOf_vfold (v : List SearchResult) (hv : (v.map (fun r => r.chunkId)).Nodup) :
    keysOf (rrfFoldFrom 0 [] v) = v.map (fun r => r.chunkId) := by
  rw [keysOf_rrfFoldFrom v hv 0 []]
  have h1 : keysOf ([] : List (SearchResult × ℚ)) = [] := rfl
  rw [h1, List.nil_append, List.filter_eq_self.mpr]
  intro a _
  rfl

theorem keysOf_full (v k : List SearchResult) (hv : (v.map (fun r => r.chunkId)).Nodup)
    (hk : (k.map (fun r => r.chunkId)).Nodup) :
    keysOf (rrfFoldFrom 0 (rrfFoldFrom 0 [] v) k)
      = v.map (fun r => r.chunkId)
        ++ (k.map (fun r => r.chunkId)).filter
            (fun c => !((v.map (fun r => r.chunkId)).any (fun x => x == c))) := by
  rw [keysOf_rrfFoldFrom k hk 0 _, keysOf_vfold v hv]
  congr 1
  apply List.filter_congr
  intro c _
  rw [any_key_eq, keysOf_vfold v hv]

theorem not_mem_of_filter_anykey {vKeys : List String} {c : String}
    (hc : (!(vKeys.any (fun x => x == c))) = true) : c ∉ vKeys := by
  intro hmem
  have : vKeys.any (fun x => x == c) = true :=
    List.any_eq_true.mpr ⟨c, hmem, by simp⟩
  rw [this] at hc
  simp at hc

theorem pairwise_tie_keys (v k : List SearchResult)
    (hv : (v.map (fun r => r.chunkId)).Nodup) (hk : (k.map (fun r => r.chunkId)).Nodup) :
    (keysOf (rrfFoldFrom 0 (rrfFoldFrom 0 [] v) k)).Pairwise
      (fun c1 c2 => rankLt (rankOf v c1) (rankOf v c2) ∨
        (rankOf v c1 = rankOf v c2 ∧ rankLt (rankOf k c1) (rankOf k c2))) := by
  rw [keysOf_full v k hv hk, List.pairwise_append]
  refine ⟨?_, ?_, ?_⟩
  · exact (pairwise_rankLt_keys v hv).imp (fun h => Or.inl h)
  · have hkp := ((pairwise_rankLt_keys k hk).filter
      (fun c => !((v.map (fun r => r.chunkId)).any (fun x => x == c))))
    refine hkp.imp_of_mem ?_
    intro a b ha hb hr
    have hna : a ∉ v.map (fun r => r.chunkId) :=
      not_mem_of_filter_anykey (List.mem_filter.mp ha).2
    have hnb : b ∉ v.map (fun r => r.chunkId) :=
      not_mem_of_filter_anykey (List.mem_filter.mp hb).2
    right
    constructor
    · rw [(rankOf_eq_none_iff v a).mpr hna, (rankOf_eq_none_iff v b).mpr hnb]
    · exact hr
  · intro a ha b hb
    left
    have hsome := rankOf_isSome_of_mem (v := v) ha
    have hnb : b ∉ v.map (fun r => r.chunkId) :=
      not_mem_of_filter_anykey (List.mem_filter.mp hb).2
    rcases hra : rankOf v a with _ | i
    · rw [hra] at hsome; simp at hsome
    · rw [(rankOf_eq_none_iff v b).mpr hnb]
      exact trivial

theorem length_insertByScore (x : SearchResult × ℚ) :
    ∀ s, (insertByScore x s).length = s.length + 1 := by
  intro s
  induction s with
  | nil => rfl
  | cons y ys ih =>
    by_cases h : y.2 ≤ x.2
    · simp [insertByScore, h]
    · simp [insertByScore, h, ih]

theorem length_sortByScoreDesc : ∀ l, (sortByScoreDesc l).length = l.length := by
  intro l
  induction l with
  | nil => rfl
  | cons x xs ih =>
    have hstep : sortByScoreDesc (x :: xs) = insertByScore x (sortByScoreDesc xs) := rfl
    rw [hstep, length_insertByScore, ih, List.length_cons]

theorem pairwise_insertByScore {T : SearchResult × ℚ → SearchResult × ℚ → Prop}
    (x : SearchResult × ℚ) :
    ∀ s, s.Pairwise (fun e1 e2 => e2.2 < e1.2 ∨ (e1.2 = e2.2 ∧ T e1 e2)) →
      (∀ y ∈ s, T x y) →
      (insertByScore x s).Pairwise
        (fun e1 e2 => e2.2 < e1.2 ∨ (e1.2 = e2.2 ∧ T e1 e2)) := by
  intro s
  induction s with
  | nil => intro _ _; simp [insertByScore]
  | cons y ys ih =>
    intro hp hT
    rcases List.pairwise_cons.mp hp with ⟨hy, hys⟩
    by_cases h : y.2 ≤ x.2
    · rw [show insertByScore x (y :: ys) = x :: y :: ys from by simp [insertByScore, h]]
      refine List.pairwise_cons.mpr ⟨?_, hp⟩
      intro z hz
      rcases List.mem_cons.mp hz with rfl | hzys
      · rcases lt_or_eq_of_le h with hlt | heq
        · exact Or.inl hlt
        · exact Or.inr ⟨heq.symm, hT _ (List.mem_cons_self _ _)⟩
      · have hzy := hy z hzys
        have hzle : z.2 ≤ y.2 := by
          rcases hzy with h1 | h1
          · exact le_of_lt h1
          · exact le_of_eq h1.1.symm
        rcases lt_or_eq_of_le (le_trans hzle h) with hlt | heq
        · exact Or.inl hlt
        · exact Or.inr ⟨heq.symm, hT _ (List.mem_cons_of_mem _ hzys)⟩
    · rw [show insertByScore x (y :: ys) = y :: insertByScore x ys from by
        simp [insertByScore, h]]
      refine List.pairwise_cons.mpr
        ⟨?_, ih hys (fun z hz => hT z (List.mem_cons_of_mem _ hz))⟩
      intro z hz
      rcases (mem_insertByScore x z ys).mp hz with rfl | hzys
      · exact Or.inl (not_le.mp h)
      · exact hy z hzys

theorem pairwise_sortByScoreDesc {T : SearchResult × ℚ → SearchResult × ℚ → Prop} :
    ∀ l, l.Pairwise T →
      (sortByScoreDesc l).Pairwise
        (fun e1 e2 => e2.2 < e1.2 ∨ (e1.2 = e2.2 ∧ T e1 e2)) := by
  intro l
  induction l with
  | nil => intro _; simp [sortByScoreDesc]
  | cons x xs ih =>
    intro hp
    rcases List.pairwise_cons.mp hp with ⟨hx, hxs⟩
    have hstep : sortByScoreDesc (x :: xs) = insertByScore x (sortByScoreDesc xs) := rfl
    rw [hstep]
    refine pairwise_insertByScore x _ (ih hxs) ?_
    intro y hy
    exact hx y ((mem_sortByScoreDesc y xs).mp hy)

theorem keysOf_full_nodup (v k : List SearchResult)
    (hv : (v.map (fun r => r.chunkId)).Nodup) (hk : (k.map (fun r => r.chunkId)).Nodup) :
    (keysOf (rrfFoldFrom 0 (rrfFoldFrom 0 [] v) k)).Nodup := by
  rw [keysOf_full v k hv hk, List.nodup_append]
  refine ⟨hv, hk.filter _, ?_⟩
  intro a ha hb
  exact not_mem_of_filter_anykey (List.mem_filter.mp hb).2 ha

theorem lookupScore_full (v k : List SearchResult)
    (hv : (v.map (fun r => r.chunkId)).Nodup) (hk : (k.map (fun r => r.chunkId)).Nodup)
    (cid : String)
    (hmem : cid ∈ v.map (fun r => r.chunkId) ∨ cid ∈ k.map (fun r => r.chunkId)) :
    lookupScore (rrfFoldFrom 0 (rrfFoldFrom 0 [] v) k) cid = some (rrfScoreOf v k cid) := by
  rw [lookupScore_rrfFoldFrom cid k hk 0 _]
  have hinner := lookupScore_rrfFoldFrom cid v hv 0 []
  have h0 : lookupScore ([] : List (SearchResult × ℚ)) cid = none := rfl
  unfold rrfScoreOf rrfContrib
  rcases hrv : rankOf v cid with _ | i
  · rw [hrv, h0] at hinner
    rcases hrk : rankOf k cid with _ | j
    · exfalso
      rcases hmem with h | h
      · exact (rankOf_eq_none_iff v cid).mp hrv h
      · exact (rankOf_eq_none_iff k cid).mp hrk h
    · simp [hinner]
  · rw [hrv] at hinner
    rw [h0] at hinner
    rcases hrk : rankOf k cid with _ | j
    · simp [hinner]
    · simp [hinner]

/-- C5: Reciprocal Rank Fusion. With distinct chunk ids inside each branch
list, every fused result's score is the sum, over the lists its chunk
appears in, of `1 / (60 + rank + 1)`; the returned list is ordered by fused
score descending with ties broken by semantic rank, then lexical rank, then
chunk id; at most `limit` results are returned and they are exactly the
length-`limit` prefix of the full fused ranking, which contains every chunk
of either input list; the fused score replaces the branch score. -/
theorem combineSearchResults_rrf (v k : List SearchResult) (limit : Nat)
    (hv : (v.map (fun r => r.chunkId)).Nodup)
    (hk : (k.map (fun r => r.chunkId)).Nodup) :
    (∀ r ∈ combineSearchResults v k limit, r.score = rrfScoreOf v k r.chunkId) ∧
    (combineSearchResults v k limit).Pairwise (rrfOrder v k) ∧
    (combineSearchResults v k limit).length ≤ limit ∧
    combineSearchResults v k limit
      = (combineSearchResults v k (v ++ k).length).take limit ∧
    (∀ r ∈ v ++ k, ∃ r' ∈ combineSearchResults v k (v ++ k).length,
      r'.chunkId = r.chunkId) := by
  have hnodup := keysOf_full_nodup v k hv hk
  have hmlen : (rrfFold (rrfFold [] v) k).length ≤ (v ++ k).length := by
    have h1 : (keysOf (rrfFoldFrom 0 (rrfFoldFrom 0 [] v) k)).length
        = (rrfFold (rrfFold [] v) k).length := by
      unfold keysOf
      rw [List.length_map]
      rfl
    rw [← h1, keysOf_full v k hv hk, List.length_append, List.length_append,
      List.length_map]
    have h2 := List.length_filter_le
      (fun c => !((v.map (fun r => r.chunkId)).any (fun x => x == c)))
      (k.map (fun r => r.chunkId))
    rw [List.length_map] at h2
    omega
  have hsortfull : (sortByScoreDesc (rrfFold (rrfFold [] v) k)).take ((v ++ k).length)
      = sortByScoreDesc (rrfFold (rrfFold [] v) k) := by
    apply List.take_of_length_le
    rw [length_sortByScoreDesc]
    exact hmlen
  have hscore : ∀ r ∈ combineSearchResults v k limit,
      r.score = rrfScoreOf v k r.chunkId := by
    intro r hr
    unfold combineSearchResults at hr
    rcases List.mem_map.mp hr with ⟨e, he, heq⟩
    have he2 : e ∈ rrfFold (rrfFold [] v) k := by
      have h3 : e ∈ sortByScoreDesc (rrfFold (rrfFold [] v) k) := List.mem_of_mem_take he
      rw [mem_sortByScoreDesc] at h3
      exact h3
    have hkeymem : e.1 ∈ v ∨ e.1 ∈ k := by
      rcases mem_rrfFoldFrom_fst 0 (rrfFold [] v) e he2 with ⟨e', he', hfst⟩ | h2
      · rcases mem_rrfFoldFrom_fst 0 [] e' he' with ⟨e'', he'', _⟩ | h3
        · simp at he''
        · left; rw [hfst]; exact h3
      · right; exact h2
    have hcidmem : e.1.chunkId ∈ v.map (fun r => r.chunkId)
        ∨ e.1.chunkId ∈ k.map (fun r => r.chunkId) := by
      rcases hkeymem with h | h
      · exact Or.inl (List.mem_map_of_mem _ h)
      · exact Or.inr (List.mem_map_of_mem _ h)
    have hlook1 : lookupScore (rrfFoldFrom 0 (rrfFoldFrom 0 [] v) k) e.1.chunkId
        = some e.2 := lookupScore_of_mem _ hnodup e he2
    have hlook2 := lookupScore_full v k hv hk e.1.chunkId hcidmem
    have hval : e.2 = rrfScoreOf v k e.1.chunkId := by
      rw [hlook1] at hlook2
      exact Option.some.inj hlook2
    rw [← heq]
    simpa using hval
  have hpairs : (combineSearchResults v k limit).Pairwise (rrfOrder v k) := by
    have htie0 := pairwise_tie_keys v k hv hk
    unfold keysOf at htie0
    have htie := List.pairwise_map.mp htie0
    have hsorted := pairwise_sortByScoreDesc _ htie
    have htake := hsorted.sublist (List.take_sublist limit _)
    unfold combineSearchResults
    rw [List.pairwise_map]
    refine htake.imp ?_
    intro e1 e2 h12
    rcases h12 with hlt | ⟨heqs, htb⟩
    · exact Or.inl hlt
    · refine Or.inr ⟨heqs, ?_⟩
      rcases htb with h | ⟨hveq, hklt⟩
      · exact Or.inl h
      · exact Or.inr ⟨hveq, Or.inl hklt⟩
  have hlen : (combineSearchResults v k limit).length ≤ limit := by
    unfold combineSearchResults
    rw [List.length_map, List.length_take]
    exact min_le_left _ _
  have hdeq : combineSearchResults v k limit
      = (combineSearchResults v k (v ++ k).length).take limit := by
    unfold combineSearchResults
    simp only []
    rw [hsortfull, List.map_take]
  have hcomplete : ∀ r ∈ v ++ k,
      ∃ r' ∈ combineSearchResults v k (v ++ k).length, r'.chunkId = r.chunkId := by
    intro r hr
    have hcid : r.chunkId ∈ keysOf (rrfFoldFrom 0 (rrfFoldFrom 0 [] v) k) := by
      rw [keysOf_full v k hv hk]
      rcases List.mem_append.mp hr with h | h
      · exact List.mem_append.mpr (Or.inl (List.mem_map_of_mem _ h))
      · by_cases hin : r.chunkId ∈ v.map (fun r => r.chunkId)
        · exact List.mem_append.mpr (Or.inl hin)
        · refine List.mem_append.mpr
            (Or.inr (List.mem_filter.mpr ⟨List.mem_map_of_mem _ h, ?_⟩))
          cases h2 : (v.map (fun r => r.chunkId)).any (fun x => x == r.chunkId) with
          | false => rfl
          | true =>
            exfalso
            rcases List.any_eq_true.mp h2 with ⟨x, hx, hxe⟩
            exact hin (by rw [← show x = r.chunkId from by simpa using hxe]; exact hx)
    unfold keysOf at hcid
    rcases List.mem_map.mp hcid with ⟨e, he, hekey⟩
    have hesort : e ∈ sortByScoreDesc (rrfFold (rrfFold [] v) k) :=
      (mem_sortByScoreDesc e _).mpr he
    have hetake : e ∈ (sortByScoreDesc (rrfFold (rrfFold [] v) k)).take ((v ++ k).length) := by
      rw [hsortfull]
      exact hesort
    refine ⟨{ e.1 with score := e.2 }, ?_, ?_⟩
    · unfold combineSearchResults
      exact List.mem_map_of_mem _ hetake
    · simpa using hekey
  exact ⟨hscore, hpairs, hlen, hdeq, hcomplete⟩

/-- C5 witness: the crafted example of the spec — semantic list `[A, B, C]`,
lexical list `[B, D]`, `k_rrf = 60`. B's fused score is `1/61 + 1/62`, B is
ranked strictly above A (the full order is B, A, D, C), and the general
theorem applies at this input. -/
theorem combineSearchResults_rrf_witness :
    ((exSem.map (fun r => r.chunkId)).Nodup ∧ (exLex.map (fun r => r.chunkId)).Nodup) ∧
    (∀ r ∈ combineSearchResults exSem exLex 10,
      r.score = rrfScoreOf exSem exLex r.chunkId) ∧
    (combineSearchResults exSem exLex 10).Pairwise (rrfOrder exSem exLex) ∧
    ((combineSearchResults exSem exLex 10).map (fun r => r.chunkId)
        = ["B", "A", "D", "C"] ∧
      rrfScoreOf exSem exLex "B" = 1 / 61 + 1 / 62) := by
  refine ⟨⟨by decide, by decide⟩,
    (combineSearchResults_rrf exSem exLex 10 (by decide) (by decide)).1,
    (combineSearchResults_rrf exSem exLex 10 (by decide) (by decide)).2.1,
    ?_, ?_⟩
  · simp only [combineSearchResults, rrfFold, upsertScore, exSem, exLex, mkRes,
      List.enum, List.enumFrom, List.foldl, List.any, Bool.or_eq_true, beq_iff_eq,
      List.map, String.reduceEq, reduceIte, List.any_nil, List.any_cons,
      or_false, false_or]
    norm_num [sortByScoreDesc, insertByScore, List.foldr, List.take, List.map]
  · have h1 : rankOf exSem "B" = some 1 := by with_unfolding_all decide
    have h2 : rankOf exLex "B" = some 0 := by with_unfolding_all decide
    simp only [rrfScoreOf, rrfContrib, h1, h2]
    norm_num

end DocSearch
